import Mathlib

/-!
# BundleCreator: a verification development

Shallow embedding of `platform/OSP/BundleCreator/src/BundleCreator.cpp`
(the OSP bundle creator utility) and theorems about it.

Conventions of the embedding.

* `std::string` is `String`; a `Char` stands for one C++ `char`.
* A thrown C++ exception is a value of `Exc`; a function that can throw
  returns `Except Exc _`.
* The bundle specification (`_ptrCfg`, an `XMLConfiguration`) is an abstract
  property accessor `Cfg`: `cfg key = none` means the property is absent.
* Library primitives whose code is not part of the file under study
  (`config().expand`, boolean and version parsing, the `BundleManifest`
  key constants) are parameters, collected in `Env` and `Keys`.
* Loops whose termination depends on the input take a `fuel` argument and
  return `none` when it runs out.
-/

namespace BundleCreator

/-! ## Strings and library primitives -/

/-- Exceptions thrown by the program and by the library calls it makes. -/
inductive Exc where
  | notFound (key : String)
  | syntaxError (value : String)
  | fileError (msg : String) (path : String)
  | other (tag : String)
  deriving DecidableEq, Repr

/-- The bundle specification as a property accessor: `none` is an absent
property, `some v` the value `XMLConfiguration::getString` returns. -/
abbrev Cfg := String → Option String

/-- Library primitives used by `loadManifest`, for a version type `V`. -/
structure Env (V : Type) where
  /-- The global `config().expand`. -/
  expand : String → String
  /-- Boolean parsing inside `AbstractConfiguration::getBool`. -/
  parseBool : String → Option Bool
  /-- The constructor `Poco::OSP::Version(const std::string&)`. -/
  parseVersion : String → Option V
  /-- The constant `BundleManifest::DEFAULT_RUNLEVEL`. -/
  DEFAULT_RUNLEVEL : String

/-- Modelled from the spec: `Poco::Ascii::isSpace` (Foundation library, not
part of the sources at hand): the white space characters removed by
trimming. -/
def isSpace (c : Char) : Bool :=
  c == ' ' || (9 ≤ c.toNat && c.toNat ≤ 13)

/-- Modelled from the spec: `Poco::trimInPlace` / `TOK_TRIM` (Foundation
library, not part of the sources at hand): leading and trailing white space
is removed. -/
def trim (s : String) : String :=
  String.mk ((s.data.dropWhile isSpace).reverse.dropWhile isSpace).reverse

/-- `Poco::NumberFormatter::format` on an unsigned integer: decimal digits. -/
def format (n : Nat) : String := toString n

/-- Width of `Poco::UInt32`. -/
def UINT32 : Nat := 4294967296

/-- `std::string::empty`. -/
def empty (s : String) : Bool := s == ""

/-! ## Configuration access (source lines 595-608) -/

/-- `hasProperty(prop)` of the specification. -/
def hasProperty (cfg : Cfg) (prop : String) : Bool := (cfg prop).isSome

/-- `getString(prop)`: throws when the property is absent, otherwise the
value is passed through the global `expand`. -/
def getString {V : Type} (env : Env V) (cfg : Cfg) (prop : String) : Except Exc String :=
  match cfg prop with
  | none => .error (.notFound prop)
  | some v => .ok (env.expand v)

/-- `getString(prop, deflt)`: the default replaces an absent property; the
result is passed through the global `expand` in both cases. -/
def getStringD {V : Type} (env : Env V) (cfg : Cfg) (prop : String) (deflt : String) : String :=
  env.expand ((cfg prop).getD deflt)

/-- `getBool(prop, deflt)`: the default replaces an absent property; a
present value that is no boolean raises a syntax error. -/
def getBool {V : Type} (env : Env V) (cfg : Cfg) (prop : String) (deflt : Bool) : Except Exc Bool :=
  match cfg prop with
  | none => .ok deflt
  | some v =>
    match env.parseBool v with
    | none => .error (.syntaxError v)
    | some b => .ok b

/-! ## ManifestInfo and loadManifest (source lines 366-406) -/

/-- `ManifestInfo::Dependency`. -/
structure Dependency where
  symbolicName : String
  versions : String
  deriving DecidableEq, Repr

/-- `ManifestInfo`, with the fields in the order of its constructor. -/
structure ManifestInfo (V : Type) where
  name : String
  symbolicName : String
  version : V
  vendor : String
  copyright : String
  activatorClass : String
  activatorLibrary : String
  requiredBundles : List Dependency
  lazyStart : Bool
  runLevel : String
  extendsBundle : String
  deriving DecidableEq, Repr

/-- The constant `PREFIX` of `loadManifest`. -/
def PREFIX : String := "manifest."

/-- What one iteration of the dependency loop reads for index `idx`
(lines 385-393): the trimmed `symName` and `versionRange`. -/
def readDependency {V : Type} (env : Env V) (cfg : Cfg) (idx : Nat) : String × String :=
  let path := (PREFIX ++ "dependency[") ++ format idx ++ "]."
  let symName := path ++ "symbolicName"
  let versionRange := path ++ "version"
  let symName := getStringD env cfg symName ""
  let versionRange := getStringD env cfg versionRange ""
  (trim symName, trim versionRange)

/-- The `do ... while (!symName.empty())` loop of `loadManifest`
(lines 383-403). `idx` is the `Poco::UInt32` counter, `requiredBundles` the
list built so far. -/
def scanDependencies {V : Type} (env : Env V) (cfg : Cfg) :
    Nat → Nat → List Dependency → Option (List Dependency)
  | 0, _, _ => none
  | fuel + 1, idx, requiredBundles =>
    let r := readDependency env cfg idx
    let symName := r.1
    let versionRange := r.2
    let idx := (idx + 1) % UINT32
    if !empty symName then
      let dep : Dependency :=
        { symbolicName := symName
          versions := if !empty versionRange then versionRange else "" }
      scanDependencies env cfg fuel idx (requiredBundles ++ [dep])
    else
      some requiredBundles

/-- `loadManifest`. The result is `none` when the dependency loop is still
running after `fuel` iterations, `some (.error e)` when `e` is thrown, and
`some (.ok info)` when `info` is returned. -/
def loadManifest {V : Type} (env : Env V) (cfg : Cfg) (fuel : Nat) :
    Option (Except Exc (ManifestInfo V)) :=
  match getString env cfg (PREFIX ++ "name") with
  | .error e => some (.error e)
  | .ok name =>
  match getString env cfg (PREFIX ++ "symbolicName") with
  | .error e => some (.error e)
  | .ok symbolicName =>
  match getString env cfg (PREFIX ++ "vendor") with
  | .error e => some (.error e)
  | .ok vendor =>
  let copyright := getStringD env cfg (PREFIX ++ "copyright") ""
  let activatorClass := getStringD env cfg (PREFIX ++ "activator.class") ""
  let activatorLibrary := getStringD env cfg (PREFIX ++ "activator.library") ""
  match getBool env cfg (PREFIX ++ "lazyStart") false with
  | .error e => some (.error e)
  | .ok lazyStart =>
  let runLevel := getStringD env cfg (PREFIX ++ "runLevel") env.DEFAULT_RUNLEVEL
  let extendsBundle := getStringD env cfg (PREFIX ++ "extends") ""
  match getString env cfg (PREFIX ++ "version") with
  | .error e => some (.error e)
  | .ok versionString =>
  match env.parseVersion versionString with
  | none => some (.error (.syntaxError versionString))
  | some version =>
  match scanDependencies env cfg fuel 0 [] with
  | none => none
  | some requiredBundles =>
    some (.ok
      { name := name, symbolicName := symbolicName, version := version, vendor := vendor,
        copyright := copyright, activatorClass := activatorClass,
        activatorLibrary := activatorLibrary, requiredBundles := requiredBundles,
        lazyStart := lazyStart, runLevel := runLevel, extendsBundle := extendsBundle })

/-- The dependency entry the loop appends for index `i`. -/
def dependencyAt {V : Type} (env : Env V) (cfg : Cfg) (i : Nat) : Dependency :=
  { symbolicName := (readDependency env cfg i).1
    versions := (readDependency env cfg i).2 }

/-! ## saveManifest (source lines 408-452) -/

/-- The `BundleManifest` key constants written by `saveManifest`. -/
structure Keys where
  MANIFEST_VERSION : String
  VERSION : String
  BUNDLE_NAME : String
  BUNDLE_SYMBOLICNAME : String
  BUNDLE_VERSION : String
  BUNDLE_VENDOR : String
  BUNDLE_COPYRIGHT : String
  BUNDLE_ACTIVATOR : String
  BUNDLE_RUNLEVEL : String
  EXTENDS_BUNDLE : String
  BUNDLE_LAZYSTART : String
  REQUIRE_BUNDLE : String

/-- What `std::endl` appends to the stream. -/
def endl : String := "\n"

/-- Modelled from the spec: `Poco::toLower` (Foundation library, not part of
the sources at hand): the key name lower-cased, letter by letter. -/
def toLower (s : String) : String := String.mk (s.data.map Char.toLower)

/-- `std::string(n, ' ')`. -/
def spaces (n : Nat) : String := String.mk (List.replicate n ' ')

/-- The `for` loop over the dependencies (lines 440-449). `first` tells
whether the iterator still equals `deps.begin()`; `out` is the stream
content. -/
def writeDependencies (keys : Keys) (indent : String) :
    Bool → List Dependency → String → String
  | _, [], out => out
  | first, dep :: rest, out =>
    let out := if !first then out ++ ", \\" ++ endl ++ indent else out
    let out := out ++ dep.symbolicName
    let out :=
      if !empty dep.versions then out ++ ";" ++ toLower keys.BUNDLE_VERSION ++ "=" ++ dep.versions
      else out
    writeDependencies keys indent false rest out

/-- `saveManifest(info, out)`: the content of the stream `out` afterwards.
`versionToString` is `Version::toString`. -/
def saveManifest {V : Type} (keys : Keys) (versionToString : V → String)
    (info : ManifestInfo V) (out : String) : String :=
  let out := out ++ keys.MANIFEST_VERSION ++ ": " ++ keys.VERSION ++ endl
  let out := out ++ keys.BUNDLE_NAME ++ ": " ++ info.name ++ endl
  let out := out ++ keys.BUNDLE_SYMBOLICNAME ++ ": " ++ info.symbolicName ++ endl
  let out := out ++ keys.BUNDLE_VERSION ++ ": " ++ versionToString info.version ++ endl
  let out := out ++ keys.BUNDLE_VENDOR ++ ": " ++ info.vendor ++ endl
  let out :=
    if !empty info.copyright then out ++ keys.BUNDLE_COPYRIGHT ++ ": " ++ info.copyright ++ endl
    else out
  let out :=
    if !empty info.activatorClass && !empty info.activatorLibrary then
      out ++ keys.BUNDLE_ACTIVATOR ++ ": " ++ info.activatorClass ++ ";library="
        ++ info.activatorLibrary ++ endl
    else out
  let out :=
    if !empty info.runLevel then out ++ keys.BUNDLE_RUNLEVEL ++ ": " ++ info.runLevel ++ endl
    else out
  let out :=
    if !empty info.extendsBundle then
      out ++ keys.EXTENDS_BUNDLE ++ ": " ++ info.extendsBundle ++ endl
    else out
  let out :=
    out ++ keys.BUNDLE_LAZYSTART ++ ": " ++ (if info.lazyStart then "true" else "false") ++ endl
  let deps := info.requiredBundles
  if !deps.isEmpty then
    let out := out ++ keys.REQUIRE_BUNDLE ++ ": "
    let indent := spaces (keys.REQUIRE_BUNDLE.length + 2)
    let out := writeDependencies keys indent true deps out
    out ++ endl
  else out

/-- One rendered dependency: the name, followed by the lower-cased version
key and the range when the range is not empty. -/
def dependencyEntry (keys : Keys) (dep : Dependency) : String :=
  if dep.versions = "" then dep.symbolicName
  else dep.symbolicName ++ ";" ++ toLower keys.BUNDLE_VERSION ++ "=" ++ dep.versions

/-- The rendering of one dependency in the words of the specification:
`symbolicName` or `symbolicName;version=range`. -/
def specDependencyEntry (dep : Dependency) : String :=
  if dep.versions = "" then dep.symbolicName
  else dep.symbolicName ++ ";version=" ++ dep.versions

/-- The key names shown in the sample manifest in the comments of
`saveManifest` (lines 410-417 and 433), completed in the same style. -/
def sampleKeys : Keys where
  MANIFEST_VERSION := "Manifest-Version"
  VERSION := "1.0"
  BUNDLE_NAME := "Bundle-Name"
  BUNDLE_SYMBOLICNAME := "Bundle-SymbolicName"
  BUNDLE_VERSION := "Bundle-Version"
  BUNDLE_VENDOR := "Bundle-Vendor"
  BUNDLE_COPYRIGHT := "Bundle-Copyright"
  BUNDLE_ACTIVATOR := "Bundle-Activator"
  BUNDLE_RUNLEVEL := "Bundle-RunLevel"
  EXTENDS_BUNDLE := "Extends-Bundle"
  BUNDLE_LAZYSTART := "Bundle-LazyStart"
  REQUIRE_BUNDLE := "Require-Bundle"

/-- The manifest of the sample in the source comments, with two
dependencies. -/
def infoSample : ManifestInfo String where
  name := "OSP Sample Bundle 9"
  symbolicName := "com.appinf.osp.bundle9"
  version := "0.9.1"
  vendor := "Applied Informatics"
  copyright := ""
  activatorClass := "MyBundleActivator"
  activatorLibrary := "TestBundle"
  requiredBundles := [⟨"com.appinf.osp.bundle1", "[1.0,2.0)"⟩, ⟨"com.appinf.osp.bundle2", ""⟩]
  lazyStart := false
  runLevel := "200"
  extendsBundle := ""

/-! ## The application object (source lines 119-235, 538-544, 611-618) -/

/-- The member variables of `BundleCreatorApplication` that the pipeline
reads. `_storeExtensions` is a `std::set<std::string>`, kept as the list of
its elements. -/
structure BundleCreatorApplication where
  _osName : String
  _osArch : String
  _showHelp : Bool
  _outputDir : String
  _keep : Bool
  _noDeflate : Bool
  _storeExtensions : List String
  deriving DecidableEq, Repr

/-- `std::isalnum` in the "C" locale: letters and digits. -/
def isalnum (c : Char) : Bool := c.isAlphanum

/-- `makeValidFileName(name)`: every character that is not alphanumeric is
overwritten with an underscore. -/
def makeValidFileName (name : String) : String :=
  String.mk (name.data.map (fun c => if !isalnum c then '_' else c))

/-- The constructor. `osName`, `osArchitecture` and `current` are the values
of `Poco::Environment::osName()`, `Poco::Environment::osArchitecture()` and
`Path::current()`. -/
def BundleCreatorApplication.new (osName osArchitecture current : String) :
    BundleCreatorApplication :=
  { _osName := makeValidFileName osName
    _osArch := makeValidFileName osArchitecture
    _showHelp := false
    _outputDir := current
    _keep := false
    _noDeflate := false
    _storeExtensions := [] }

/-- `handleOutput`. -/
def handleOutput (app : BundleCreatorApplication) (_name value : String) :
    BundleCreatorApplication :=
  { app with _outputDir := value }

/-- `handleKeep`. -/
def handleKeep (app : BundleCreatorApplication) (_name _value : String) :
    BundleCreatorApplication :=
  { app with _keep := true }

/-- `handleOSName`. -/
def handleOSName (app : BundleCreatorApplication) (_name value : String) :
    BundleCreatorApplication :=
  { app with _osName := value }

/-- `handleOSArch`. -/
def handleOSArch (app : BundleCreatorApplication) (_name value : String) :
    BundleCreatorApplication :=
  { app with _osArch := value }

/-- Splitting a character sequence at every separator character. -/
def splitAt (separators : List Char) : List Char → List (List Char)
  | [] => [[]]
  | c :: cs =>
    if separators.contains c then [] :: splitAt separators cs
    else
      match splitAt separators cs with
      | t :: ts => (c :: t) :: ts
      | [] => [[c]]

/-- Modelled from the spec: `Poco::StringTokenizer` with the options
`TOK_TRIM | TOK_IGNORE_EMPTY` (Foundation library, not part of the sources at
hand): the string is split at the separator characters, every token is
trimmed, and empty tokens are dropped. -/
def StringTokenizer (str separators : String) : List String :=
  ((splitAt separators.data str.data).map (fun t => trim (String.mk t))).filter
    (fun t => !empty t)

/-- `std::set::insert` of one element. -/
def setInsert (set : List String) (x : String) : List String :=
  if set.contains x then set else set ++ [x]

/-- `handleNoDeflate`. -/
def handleNoDeflate (app : BundleCreatorApplication) (_name value : String) :
    BundleCreatorApplication :=
  if empty value then
    { app with _noDeflate := true }
  else
    let tok := StringTokenizer value ",;"
    { app with _storeExtensions := tok.foldl setInsert app._storeExtensions }

/-! ## FileLock (source lines 58-116) and handleConfig (lines 314-364) -/

/-- `Poco::Zip::ZipCommon::CompressionMethod`, the two values used. -/
inductive CompressionMethod where
  | CM_STORE
  | CM_AUTO
  deriving DecidableEq, Repr

/-- The arguments of one archive build: the extensions handed to
`setStoreExtensions` (`none` when it is not called) and the compression
method handed to `addRecursive`. -/
structure CompressCall where
  storeExtensions : Option (List String)
  method : CompressionMethod
  deriving DecidableEq, Repr

/-- The part of the outside world the pipeline acts on, with counters of
the calls made. -/
structure World where
  /-- The sentinel file `<stagingDirPath>.lock` exists. -/
  sentinel : Bool
  /-- The staging directory exists. -/
  staging : Bool
  /-- Calls of `File::createFile` on the sentinel so far. -/
  createCalls : Nat
  /-- Calls of `Thread::sleep` so far. -/
  sleeps : Nat
  /-- Calls of `FileLock::release` so far. -/
  releaseCalls : Nat
  /-- The archive builds carried out so far. -/
  compressed : List CompressCall
  deriving DecidableEq, Repr

/-- The library calls of `handleConfig` that can throw. -/
inductive Site where
  | createOutputDir
  | loadManifest
  | removeStaleChildren
  | removeStale
  | createStaging
  | handleBin
  | handleMeta
  | handleOther
  | openArchive
  | addRecursive
  | closeCompress
  | closeArchive
  | removeDoneChildren
  | removeDone
  | removeFailedChildren
  | removeFailed
  | release
  deriving DecidableEq, Repr

/-- How the outside world answers: the outcome of the `i`-th call of
`File::createFile` on the sentinel (`true`: created, `false`: it exists
already, or an exception), and for every other call the exception it throws,
if any. -/
structure Outcomes where
  createFile : Nat → Except Exc Bool
  fault : Site → Option Exc

/-- A statement of `handleConfig`: it ends normally or throws, and leaves a
world behind in both cases. -/
abbrev Step := World → Except Exc Unit × World

/-- A library call at `site` that has `effect` when it does not throw. -/
def call (o : Outcomes) (site : Site) (effect : World → World) : Step := fun w =>
  match o.fault site with
  | some e => (.error e, w)
  | none => (.ok (), effect w)

/-- Sequencing of two statements: the second runs when the first does not
throw. -/
def andThen (a b : Step) : Step := fun w =>
  match a w with
  | (.error e, w) => (.error e, w)
  | (.ok _, w) => b w

/-- A statement with no effect. -/
def skip : Step := fun w => (.ok (), w)

/-- `FileLock::createFile`: an exception of `File::createFile` is caught and
reported as `false`. -/
def FileLock.createFile (o : Outcomes) (w : World) : Bool × World :=
  match o.createFile w.createCalls with
  | .ok b => (b, { w with createCalls := w.createCalls + 1, sentinel := w.sentinel || b })
  | .error _ => (false, { w with createCalls := w.createCalls + 1 })

/-- `Thread::sleep(500 + rnd.next(2000))`. -/
def sleep (w : World) : World := { w with sleeps := w.sleeps + 1 }

/-- The `while (!haveLock)` loop of `FileLock::acquire`, entered with
`haveLock` false. `file` is `_file.path()`. -/
def FileLock.acquireLoop (o : Outcomes) (file : String) :
    Nat → Nat → World → Option (Except Exc Unit × World)
  | 0, _, _ => none
  | fuel + 1, attempts, w =>
    let attempts := attempts + 1
    if attempts > 100 then
      some (.error (.fileError "Cannot acquire lock for bundle directory" file), w)
    else
      let w := sleep w
      let r := FileLock.createFile o w
      let haveLock := r.1
      if !haveLock then FileLock.acquireLoop o file fuel attempts r.2
      else some (.ok (), r.2)

/-- `FileLock::acquire`. -/
def FileLock.acquire (o : Outcomes) (file : String) (fuel : Nat) (w : World) :
    Option (Except Exc Unit × World) :=
  let attempts := 0
  let r := FileLock.createFile o w
  let haveLock := r.1
  if !haveLock then FileLock.acquireLoop o file fuel attempts r.2
  else some (.ok (), r.2)

/-- `FileLock::release`: `_file.remove()`. -/
def FileLock.release (o : Outcomes) : Step := fun w =>
  call o .release (fun w => { w with sentinel := false }) { w with releaseCalls := w.releaseCalls + 1 }

/-- The destructor `~FileLock`: `release` inside `try`/`catch (...)`. -/
def FileLock.destroy (o : Outcomes) (w : World) : World :=
  match FileLock.release o w with
  | (.ok _, w) => w
  | (.error _, w) => w

/-- `safeRemove(bndlDir); bndlDir.remove(true);` at the two given sites. -/
def removeStaging (o : Outcomes) (children dir : Site) : Step :=
  andThen (call o children id) (call o dir (fun w => { w with staging := false }))

/-- The compression method handed to `addRecursive` (line 346). -/
def compressionMethod (app : BundleCreatorApplication) : CompressionMethod :=
  if app._noDeflate then .CM_STORE else .CM_AUTO

/-- Lines 335-348: the three handlers and the archive build. -/
def assembleAndPackage (app : BundleCreatorApplication) (o : Outcomes) : Step :=
  andThen (call o .handleBin id) <|
  andThen (call o .handleMeta id) <|
  andThen (call o .handleOther id) <|
  andThen (call o .openArchive id) <|
  andThen (call o .addRecursive (fun w =>
      { w with compressed := w.compressed ++
          [{ storeExtensions :=
               if !app._storeExtensions.isEmpty then some app._storeExtensions else none
             method := compressionMethod app }] })) <|
  andThen (call o .closeCompress id) (call o .closeArchive id)

/-- The body of the `try` block (lines 335-353). -/
def tryBlock (app : BundleCreatorApplication) (o : Outcomes) : Step :=
  andThen (assembleAndPackage app o)
    (if !app._keep then removeStaging o .removeDoneChildren .removeDone else skip)

/-- The handler `catch (...)` (lines 357-362) for the exception `e`: an
exception thrown by the removal leaves the handler in place of `e`. -/
def catchBlock (app : BundleCreatorApplication) (o : Outcomes) (e : Exc) : Step := fun w =>
  match (if !app._keep then removeStaging o .removeFailedChildren .removeFailed else skip) w with
  | (.error e', w) => (.error e', w)
  | (.ok _, w) => (.error e, w)

/-- `try { body } catch (...) { handler }`: the handler runs in the world
the body left behind when it threw. -/
def tryCatch (body : Step) (handler : Exc → Step) : Step := fun w =>
  match body w with
  | (.ok _, w) => (.ok (), w)
  | (.error e, w) => handler e w

/-- Lines 327-363 of `handleConfig`, run while the lock is held. -/
def handleConfigLocked (app : BundleCreatorApplication) (o : Outcomes) : Step := fun w =>
  (andThen (if w.staging then removeStaging o .removeStaleChildren .removeStale else skip) <|
   andThen (call o .createStaging (fun w => { w with staging := true })) <|
   tryCatch (tryBlock app o) (catchBlock app o)) w

/-- `handleConfig`. `file` is the path of the sentinel. The `FileLock`
object exists from the successful end of its constructor to the end of the
function, where its destructor runs on every way out. -/
def handleConfig (app : BundleCreatorApplication) (o : Outcomes) (file : String) (fuel : Nat)
    (w : World) : Option (Except Exc Unit × World) :=
  match andThen (call o .createOutputDir id) (call o .loadManifest id) w with
  | (.error e, w) => some (.error e, w)
  | (.ok _, w) =>
    match FileLock.acquire o file fuel w with
    | none => none
    | some (.error e, w) => some (.error e, w)
    | some (.ok _, w) =>
      let r := handleConfigLocked app o w
      some (r.1, FileLock.destroy o r.2)

/-- A world before the first run: nothing exists, nothing was called. -/
def World.initial : World :=
  { sentinel := false, staging := false, createCalls := 0, sleeps := 0, releaseCalls := 0,
    compressed := [] }

/-- Every library call succeeds and the sentinel is created at once. -/
def Outcomes.allGood : Outcomes :=
  { createFile := fun _ => .ok true, fault := fun _ => none }

/-! ## handleBin (source lines 454-503) -/

/-- The `Poco::Path` values `handleBin` builds, kept symbolic: a given path,
`Path(parent, name)` made a directory, and
`Path(parent, Path(relative, Path::PATH_UNIX))`. -/
inductive Path where
  | given (path : String)
  | directory (parent : Path) (name : String)
  | resolved (parent : Path) (relative : String)
  deriving DecidableEq, Repr

/-- What `handleBin` does for one `code[i]` entry: the glob expression
read, the platform directory created, and the patterns handed to
`Glob::glob`, whose matches are copied into the platform directory. -/
structure CodeEntry where
  expr : String
  platformDir : Path
  patterns : List String
  deriving DecidableEq, Repr

/-- The property path `code[idx]` (lines 466-468 and 499-501). -/
def codePath (idx : Nat) : String := "code[" ++ format idx ++ "]"

/-- The body of the `while` loop of `handleBin` (lines 471-488) for the
entry at `path`. -/
def handleCode {V : Type} (env : Env V) (cfg : Cfg) (app : BundleCreatorApplication)
    (binDir : Path) (path : String) : CodeEntry :=
  let expr := getStringD env cfg path ""
  let path := path ++ "[@platform]"
  let platform := getStringD env cfg path ""
  let platform :=
    if empty platform || !platform.data.contains '/' then app._osName ++ "/" ++ app._osArch
    else platform
  let platformDir := Path.resolved binDir platform
  let incTokenizer := StringTokenizer expr ",;\n"
  { expr := expr, platformDir := platformDir, patterns := incTokenizer }

/-- The `while (_ptrCfg->hasProperty(path))` loop of `handleBin`, where
`idx` is the index in the current `path` (the counter of the source is one
ahead) and `entries` the work done so far. -/
def handleBinLoop {V : Type} (env : Env V) (cfg : Cfg) (app : BundleCreatorApplication)
    (binDir : Path) : Nat → Nat → List CodeEntry → Option (List CodeEntry)
  | 0, _, _ => none
  | fuel + 1, idx, entries =>
    let path := codePath idx
    if hasProperty cfg path then
      handleBinLoop env cfg app binDir fuel ((idx + 1) % UINT32)
        (entries ++ [handleCode env cfg app binDir path])
    else
      some entries

/-- `handleBin(root)`: the entries processed, in order. -/
def handleBin {V : Type} (env : Env V) (cfg : Cfg) (app : BundleCreatorApplication)
    (root : Path) (fuel : Nat) : Option (List CodeEntry) :=
  let binDir := Path.directory root "bin"
  handleBinLoop env cfg app binDir fuel 0 []

/-! ## Defined properties (source lines 237-254) -/

/-- The global configuration `config()` as a property store: `none` is an
unbound name. -/
abbrev Configuration := String → Option String

/-- Modelled from the spec: `AbstractConfiguration::setString` on the
application configuration (Util library, not part of the sources at hand):
the name is bound to the value, replacing an earlier binding of that name. -/
def setString (config : Configuration) (key value : String) : Configuration :=
  fun k => if k = key then some value else config k

/-- `std::string::find(c)` on the characters of a string: the position of the
first occurrence, `none` for `npos`. -/
def find : List Char → Char → Option Nat
  | [], _ => none
  | x :: xs, c => if x = c then some 0 else (find xs c).map (· + 1)

/-- `std::string::assign(str, subpos, sublen)`: at most `sublen` characters
of `str` from position `subpos` on. -/
def assign (str : String) (subpos sublen : Nat) : String :=
  String.mk ((str.data.drop subpos).take sublen)

/-- The `name` and `value` that `defineProperty(def)` computes
(lines 244-252). -/
def splitDefine (definition : String) : String × String :=
  match find definition.data '=' with
  | some pos => (assign definition 0 pos, assign definition (pos + 1) (definition.length - pos))
  | none => (definition, "")

/-- `defineProperty(def)`: the configuration afterwards. -/
def defineProperty (config : Configuration) (definition : String) : Configuration :=
  let nv := splitDefine definition
  setString config nv.1 nv.2

/-- `handleDefine`. -/
def handleDefine (config : Configuration) (_name value : String) : Configuration :=
  defineProperty config value

/-! ## handleOther, copyFile and copyDirectory (source lines 517-536, 563-593) -/

/-- A `Poco::File` as the copy sees it: its file name, whether `isHidden()`
holds, and for a directory the entries a `DirectoryIterator` yields. -/
inductive Entry where
  | file (name : String) (hidden : Bool)
  | directory (name : String) (hidden : Bool) (children : List Entry)
  deriving Repr

/-- `Path(file.path()).getFileName()`. -/
def Entry.getFileName : Entry → String
  | .file name _ => name
  | .directory name _ _ => name

/-- `File::isHidden`. -/
def Entry.isHidden : Entry → Bool
  | .file _ hidden => hidden
  | .directory _ hidden _ => hidden

/-- A destination path as the list of its components. -/
abbrev PathL := List String

/-- The destination file system: the paths that are directories and the
paths that are files. -/
structure FS where
  dirs : List PathL
  files : List PathL
  deriving DecidableEq, Repr

/-- Modelled from the spec: `Poco::File::createDirectories` (Foundation
library, not part of the sources at hand): nothing happens when the path
exists, as a directory or as a file; otherwise the directory and every
missing parent directory are created, which throws when a parent is a
regular file. -/
def createDirectories (fs : FS) (path : PathL) : Except Exc FS :=
  if fs.dirs.contains path || fs.files.contains path then .ok fs
  else if path.inits.any (fun q => !fs.dirs.contains q && fs.files.contains q) then
    .error (.fileError "Cannot create directory" (String.intercalate "/" path))
  else
    .ok { fs with
      dirs := path.inits.foldl (fun ds q => if ds.contains q then ds else ds ++ [q]) fs.dirs }

/-- Modelled from the spec: `Poco::File::copyTo` for a plain file
(Foundation library, not part of the sources at hand): copying into an
existing directory target, or a target in directory form, renames the copy to
the base name of the source; the copy replaces a file at the target, and
throws when the target is a directory or its parent is no directory. -/
def copyTo (fs : FS) (name : String) (destPath : PathL) (dirForm : Bool) : Except Exc FS :=
  let dest := if fs.dirs.contains destPath || dirForm then destPath ++ [name] else destPath
  if fs.dirs.contains dest || !fs.dirs.contains dest.dropLast then
    .error (.fileError "Cannot copy file" (String.intercalate "/" dest))
  else
    .ok { fs with files := if fs.files.contains dest then fs.files else fs.files ++ [dest] }

mutual
/-- `copyFile(file, destPath)`: the destination file system afterwards, or
the exception thrown. `dirForm` is `Path(destPath).isDirectory()`. The call
`copyDirectory(file, dest.toString())` is written out as the creation of the
target and the loop over the children. -/
def copyFile (file : Entry) (destPath : PathL) (dirForm : Bool) (fs : FS) : Except Exc FS :=
  if file.isHidden then .ok fs
  else
    let dest :=
      if fs.dirs.contains destPath || dirForm then destPath ++ [file.getFileName] else destPath
    match file with
    | .directory _ _ children =>
      match createDirectories fs dest with
      | .error e => .error e
      | .ok fs => copyEach children dest fs
    | .file name _ => copyTo fs name destPath dirForm
termination_by structural file
/-- The loop `for (; it != end; ++it) copyFile(*it, destPath)` of
`copyDirectory`: `destPath` is the string built by `dest.toString()`, which
is not in directory form. -/
def copyEach (it : List Entry) (destPath : PathL) (fs : FS) : Except Exc FS :=
  match it with
  | [] => .ok fs
  | e :: rest =>
    match copyFile e destPath false fs with
    | .error err => .error err
    | .ok fs => copyEach rest destPath fs
termination_by structural it
end

/-- The entries a `DirectoryIterator` over `file` yields. -/
def Entry.children : Entry → List Entry
  | .file _ _ => []
  | .directory _ _ children => children

/-- `copyDirectory(file, destPath)`. -/
def copyDirectory (file : Entry) (destPath : PathL) (fs : FS) : Except Exc FS :=
  match createDirectories fs destPath with
  | .error e => .error e
  | .ok fs => copyEach file.children destPath fs
/-- The patterns `handleOther` hands to `Glob::glob` (lines 519-528):
`none` when there is no `files` property. -/
def handleOtherPatterns {V : Type} (env : Env V) (cfg : Cfg) : Option (List String) :=
  if hasProperty cfg "files" then
    match getString env cfg "files" with
    | .error _ => none
    | .ok globs => some (StringTokenizer globs ",;\r")
  else none

/-- `handleOther(root)`: the destination file system afterwards, or the
exception thrown. `glob` is `Glob::glob` with `GLOB_DOT_SPECIAL` (the paths
matching a pattern), `fileAt` the file found at a path, and the `std::set` of
matched paths is kept as the list of its elements. -/
def handleOther {V : Type} (env : Env V) (cfg : Cfg) (glob : String → List String)
    (fileAt : String → Entry) (root : PathL) (fs : FS) : Except Exc FS :=
  if hasProperty cfg "files" then
    match getString env cfg "files" with
    | .error e => .error e
    | .ok globs =>
      let incTokenizer := StringTokenizer globs ",;\r"
      let files := incTokenizer.foldl (fun files it => (glob it).foldl setInsert files) []
      files.foldlM (fun fs itFiles => copyFile (fileAt itFiles) root false fs) fs
  else .ok fs

mutual
/-- Every entry of the tree under `file`, with its path relative to the
parent of `file`, whether it is a directory, and whether it and every
directory above it in the tree is not hidden. -/
def listing (file : Entry) : List (PathL × Bool × Bool) :=
  match file with
  | .file name hidden => [([name], false, !hidden)]
  | .directory name hidden children =>
    ([name], true, !hidden) ::
      (listingAll children).map (fun x => (name :: x.1, x.2.1, !hidden && x.2.2))
termination_by structural file
/-- The entries of the trees under the given files. -/
def listingAll (files : List Entry) : List (PathL × Bool × Bool) :=
  match files with
  | [] => []
  | e :: rest => listing e ++ listingAll rest
termination_by structural files
end

/-! ## Two processes contending for one staging path (source lines 58-116) -/

/-- Modelled from the spec: the atomic "create-if-absent" of the sentinel
file (section 4.1; the library call `File::createFile` is not part of the
sources at hand). In the world `w`, a call that does not throw creates the
file and returns `true` exactly when the sentinel does not exist; `o` tells
which calls throw. -/
def exclusiveCreate (o : Outcomes) (w : World) : Outcomes :=
  { o with createFile := fun i =>
      match o.createFile i with
      | .ok _ => .ok (!w.sentinel)
      | .error e => .error e }

/-- Where a process stands in `handleConfig` with respect to its `FileLock`:
before the first `createFile` of `acquire`, inside the retry loop with the
local counter `attempts`, after `acquire` returned (the lock is held and the
locked part is still to run), after the locked part (the lock is held and
the destructor is still to run), after `release`, and after `acquire`
threw. -/
inductive Stage where
  | entering
  | retrying (attempts : Nat)
  | holding
  | leaving
  | released
  | failed
  deriving DecidableEq, Repr

/-- The process is between a successful `acquire` and its `release`. -/
def Stage.holds : Stage → Bool
  | .holding => true
  | .leaving => true
  | _ => false

/-- One step of a process on the shared world. An attempt of `acquire`
(the increment and test of `attempts`, the sleep, and the atomic
`createFile`, lines 83-89), the locked part of `handleConfig`, and the
destructor are one step each. -/
def FileLock.step (app : BundleCreatorApplication) (o : Outcomes) (stage : Stage) (w : World) :
    Stage × World :=
  match stage with
  | .entering =>
    let r := FileLock.createFile (exclusiveCreate o w) w
    let haveLock := r.1
    if !haveLock then (.retrying 0, r.2) else (.holding, r.2)
  | .retrying attempts =>
    let attempts := attempts + 1
    if attempts > 100 then (.failed, w)
    else
      let w := sleep w
      let r := FileLock.createFile (exclusiveCreate o w) w
      let haveLock := r.1
      if !haveLock then (.retrying attempts, r.2) else (.holding, r.2)
  | .holding => (.leaving, (handleConfigLocked app o w).2)
  | .leaving => (.released, FileLock.destroy o w)
  | .released => (.released, w)
  | .failed => (.failed, w)

/-- Two builder processes with the same staging path: the world they share
and the stage of each. -/
structure Contention where
  world : World
  first : Stage
  second : Stage
  deriving DecidableEq, Repr

/-- The next step is taken by the second process when `who` is `true`, by
the first otherwise. -/
def Contention.step (app0 app1 : BundleCreatorApplication) (o0 o1 : Outcomes) (c : Contention)
    (who : Bool) : Contention :=
  if who then
    let r := FileLock.step app1 o1 c.second c.world
    { c with world := r.2, second := r.1 }
  else
    let r := FileLock.step app0 o0 c.first c.world
    { c with world := r.2, first := r.1 }

/-- The two processes run from `c` under a schedule, which names the
process that takes each step in turn. -/
def Contention.run (app0 app1 : BundleCreatorApplication) (o0 o1 : Outcomes)
    (schedule : List Bool) (c : Contention) : Contention :=
  schedule.foldl (Contention.step app0 app1 o0 o1) c

/-- Both processes are about to call `acquire` in the world `w`. -/
def Contention.start (w : World) : Contention :=
  { world := w, first := .entering, second := .entering }

/-! ## Concrete inputs used in examples -/

/-- A specification given by a finite list of properties. -/
def cfgOf (props : List (String × String)) : Cfg := fun key => props.lookup key

/-- Primitives for examples: no variables to expand, `true`/`false`
booleans, any non-empty string is a version. -/
def envPlain : Env String where
  expand := fun s => s
  parseBool := fun s => if s == "true" then some true else if s == "false" then some false else none
  parseVersion := fun s => if s == "" then none else some s
  DEFAULT_RUNLEVEL := "999-user"

/-- A specification with `dependency[0]` and `dependency[2]` but no
`dependency[1]`. -/
def cfgGap : Cfg := cfgOf
  [ ("manifest.name", "Sample"), ("manifest.symbolicName", "com.sample"),
    ("manifest.vendor", "ACME"), ("manifest.version", "1.0.0"),
    ("manifest.dependency[0].symbolicName", "com.a"),
    ("manifest.dependency[0].version", "[1.0,2.0)"),
    ("manifest.dependency[2].symbolicName", "com.c") ]

/-- A specification with the name, symbolic name and version but no vendor. -/
def cfgNoVendor : Cfg := cfgOf
  [ ("manifest.name", "Sample"), ("manifest.symbolicName", "com.sample"),
    ("manifest.version", "1.0.0") ]

/-- A specification with exactly the four keys `loadManifest` reads without
a default. -/
def cfgMinimal : Cfg := cfgOf
  [ ("manifest.name", "Sample"), ("manifest.symbolicName", "com.sample"),
    ("manifest.vendor", "ACME"), ("manifest.version", "1.0.0") ]

/-- Every attempt to create the sentinel finds it in place. -/
def Outcomes.neverCreated : Outcomes :=
  { createFile := fun _ => .ok false, fault := fun _ => none }

/-- The sentinel is created at the call with index `n` (counted from 0) and
at no earlier one. -/
def Outcomes.createdAt (n : Nat) : Outcomes :=
  { createFile := fun i => .ok (i == n), fault := fun _ => none }

/-- The statement `s` leaves the observation `f` of the world unchanged,
whether it throws or not. -/
def Preserves {α : Type} (f : World → α) (s : Step) : Prop := ∀ w, f (s w).2 = f w

/-- Only the call at `site` throws, and it throws `e`. -/
def Outcomes.failingAt (site : Site) (e : Exc) : Outcomes :=
  { createFile := fun _ => .ok true, fault := fun s => if s = site then some e else none }

/-- The application after the option `--keep-bundle-dir` was handled. -/
def appKeep : BundleCreatorApplication :=
  handleKeep (BundleCreatorApplication.new "Linux" "x86_64" "/tmp") "keep-bundle-dir" ""

/-- The application when no option was given. -/
def appDefault : BundleCreatorApplication :=
  BundleCreatorApplication.new "Linux" "x86_64" "/tmp"

/-- A specification whose second code entry has an empty glob expression and
whose entry with index 3 is missing. -/
def cfgCodeEmpty : Cfg := cfgOf
  [ ("code[0]", "bin/*.so"), ("code[1]", ""), ("code[2]", "lib/*.so"), ("code[4]", "late/*") ]

/-- A specification whose `files` property and first code entry both hold
two patterns on two lines. -/
def cfgTwoLines : Cfg := cfgOf
  [ ("files", "a.txt\nb.txt"), ("code[0]", "a.txt\nb.txt") ]

/-- A source directory with a hidden file, a hidden directory and a visible
directory below it. -/
def treeSample : Entry :=
  .directory "web" false
    [ .file "index.html" false, .file ".htaccess" true,
      .directory ".git" true [ .file "config" false ],
      .directory "img" false [ .file "logo.png" false, .file ".thumbs" true ] ]

/-- A specification whose `files` property is `*.txt`. -/
def cfgFiles : Cfg := cfgOf [ ("files", "*.txt") ]

/-- A glob that matches `a.txt`, `b.txt` and the hidden `.c.txt` for `*.txt`. -/
def globTxt : String → List String :=
  fun pattern => if pattern == "*.txt" then ["a.txt", "b.txt", ".c.txt"] else []

/-- The plain file at a path, hidden when its name starts with a dot. -/
def fileAtPlain : String → Entry :=
  fun path => .file path (path.data.head? == some '.')

/-- A destination in which the staging root `out/b_1.0.0` exists. -/
def fsStaging : FS := { dirs := [[], ["out"], ["out", "b_1.0.0"]], files := [] }

/-- A destination in which the staging root holds a regular file named
`web`. -/
def fsClash : FS :=
  { dirs := [[], ["out"], ["out", "b_1.0.0"]], files := [["out", "b_1.0.0", "web"]] }

/-- A specification whose `files` property names a file and a directory with
the same base name `x`. -/
def cfgSameName : Cfg := cfgOf [ ("files", "a/x, b/x") ]

/-- A glob without wildcards: a pattern matches the path it spells. -/
def globLiteral : String → List String := fun pattern => [pattern]

/-- The file system in which `a/x` is a plain file and `b/x` a directory
holding the plain file `y`. -/
def fileAtSameName : String → Entry :=
  fun path => if path == "b/x" then .directory "x" false [ .file "y" false ] else .file "x" false

/-! # Theorems -/

/-! ## Dependency discovery -/

theorem empty_eq_true_iff (s : String) : empty s = true ↔ s = "" := by
  simp [empty]

theorem versions_field (v : String) : (if !empty v then v else "") = v := by
  by_cases h : v = ""
  · simp [h, empty]
  · simp [h, empty]

/-- The loop started at `idx` with `acc` collected stops after `k` further
entries when the entry at `idx + k` is the first with an empty name. -/
theorem scanDependencies_from {V : Type} (env : Env V) (cfg : Cfg) :
    ∀ (k fuel idx : Nat) (acc : List Dependency),
      idx + k < UINT32 →
      (∀ i, i < k → (readDependency env cfg (idx + i)).1 ≠ "") →
      (readDependency env cfg (idx + k)).1 = "" →
      k < fuel →
      scanDependencies env cfg fuel idx acc
        = some (acc ++ (List.range' idx k).map (dependencyAt env cfg)) := by
  intro k
  induction k with
  | zero =>
    intro fuel idx acc _ _ hstop hf
    obtain ⟨f, rfl⟩ : ∃ f, fuel = f + 1 := ⟨fuel - 1, by omega⟩
    simp only [Nat.add_zero] at hstop
    simp [scanDependencies, hstop, empty]
  | succ k ih =>
    intro fuel idx acc hb hpre hstop hf
    obtain ⟨f, rfl⟩ : ∃ f, fuel = f + 1 := ⟨fuel - 1, by omega⟩
    have h0 : (readDependency env cfg idx).1 ≠ "" := by
      have := hpre 0 (by omega)
      simpa using this
    have hidx : (idx + 1) % UINT32 = idx + 1 := Nat.mod_eq_of_lt (by omega)
    have hrec := ih f (idx + 1) (acc ++ [dependencyAt env cfg idx]) (by omega)
      (fun i hi => by
        have := hpre (i + 1) (by omega)
        rwa [show idx + 1 + i = idx + (i + 1) by omega])
      (by rwa [show idx + 1 + k = idx + (k + 1) by omega])
      (by omega)
    have hne : empty (readDependency env cfg idx).1 = false := by
      simpa [empty] using h0
    have hdep : Dependency.mk (readDependency env cfg idx).1 (readDependency env cfg idx).2
        = dependencyAt env cfg idx := rfl
    rw [scanDependencies]
    simp only [hidx, hne, versions_field, Bool.not_false, if_true, hdep, hrec]
    simp [List.range'_succ]

/-- C1. The dependency list produced by `loadManifest` is exactly the entries
`dependency[0] .. dependency[k-1]` in index order, where `k` is the least
index whose symbolicName (as the loop reads it) is empty or absent: with
more than `k` iterations of fuel the scan returns that list, `loadManifest`
finishes, and every `ManifestInfo` it returns carries that list. Entries
beyond `k` are not included whatever their symbolicName. -/
theorem loadManifest_dependencies_contiguous {V : Type} (env : Env V) (cfg : Cfg)
    (k fuel : Nat) (hk : k < UINT32)
    (hpre : ∀ i, i < k → (readDependency env cfg i).1 ≠ "")
    (hstop : (readDependency env cfg k).1 = "")
    (hfuel : k < fuel) :
    scanDependencies env cfg fuel 0 [] = some ((List.range k).map (dependencyAt env cfg))
    ∧ (loadManifest env cfg fuel).isSome = true
    ∧ ∀ info, loadManifest env cfg fuel = some (.ok info) →
        info.requiredBundles = (List.range k).map (dependencyAt env cfg) := by
  have hscan : scanDependencies env cfg fuel 0 [] = some ((List.range k).map (dependencyAt env cfg)) := by
    have := scanDependencies_from env cfg k fuel 0 [] (by omega)
      (fun i hi => by simpa using hpre i hi) (by simpa using hstop) hfuel
    simpa [List.range_eq_range'] using this
  refine ⟨hscan, ?_, ?_⟩
  · unfold loadManifest
    rw [hscan]
    repeat' split
    all_goals simp_all
  · intro info h
    unfold loadManifest at h
    rw [hscan] at h
    repeat' split at h
    all_goals (try simp at h)
    all_goals (try (subst h; simp_all))

/-- C1, at a specification with `dependency[0]` and `dependency[2]` but no
`dependency[1]`: exactly one dependency is discovered. -/
theorem loadManifest_dependencies_contiguous_witness :
    scanDependencies envPlain cfgGap 5 0 [] = some ((List.range 1).map (dependencyAt envPlain cfgGap))
    ∧ (loadManifest envPlain cfgGap 5).isSome = true
    ∧ ∀ info, loadManifest envPlain cfgGap 5 = some (.ok info) →
        info.requiredBundles = (List.range 1).map (dependencyAt envPlain cfgGap) :=
  loadManifest_dependencies_contiguous envPlain cfgGap 1 5 (by decide) (by decide) (by decide)
    (by decide)

/-! ## Required and optional manifest keys -/

/-- The dependency scan returns once the fuel covers an index whose name
reads empty. -/
theorem scanDependencies_terminates {V : Type} (env : Env V) (cfg : Cfg) (k : Nat)
    (hk : k < UINT32) (hstop : (readDependency env cfg k).1 = "") :
    ∀ (fuel idx : Nat) (acc : List Dependency), idx ≤ k → k - idx < fuel →
      ∃ l, scanDependencies env cfg fuel idx acc = some l := by
  intro fuel
  induction fuel with
  | zero => intro idx acc _ h; omega
  | succ f ih =>
    intro idx acc hle hf
    rw [scanDependencies]
    by_cases he : empty (readDependency env cfg idx).1 = true
    · exact ⟨acc, by simp [he]⟩
    · have hne : empty (readDependency env cfg idx).1 = false := by simpa using he
      have hik : idx ≠ k := by
        intro h
        rw [h, hstop] at hne
        simp [empty] at hne
      have hidx : (idx + 1) % UINT32 = idx + 1 := Nat.mod_eq_of_lt (by omega)
      simp only [hidx, hne, Bool.not_false, if_true]
      exact ih (idx + 1) _ (by omega) (by omega)

/-- The value of `loadManifest` when the four keys read without a default are
present, the version and the lazy-start flag parse, and the scan returns. -/
theorem loadManifest_ok {V : Type} (env : Env V) (cfg : Cfg) (fuel : Nat)
    (n s vd vs : String) (ver : V) (b : Bool) (l : List Dependency)
    (hn : cfg (PREFIX ++ "name") = some n) (hs : cfg (PREFIX ++ "symbolicName") = some s)
    (hvd : cfg (PREFIX ++ "vendor") = some vd) (hvs : cfg (PREFIX ++ "version") = some vs)
    (hver : env.parseVersion (env.expand vs) = some ver)
    (hb : getBool env cfg (PREFIX ++ "lazyStart") false = .ok b)
    (hscan : scanDependencies env cfg fuel 0 [] = some l) :
    loadManifest env cfg fuel = some (.ok
      { name := env.expand n, symbolicName := env.expand s, version := ver,
        vendor := env.expand vd,
        copyright := getStringD env cfg (PREFIX ++ "copyright") "",
        activatorClass := getStringD env cfg (PREFIX ++ "activator.class") "",
        activatorLibrary := getStringD env cfg (PREFIX ++ "activator.library") "",
        requiredBundles := l, lazyStart := b,
        runLevel := getStringD env cfg (PREFIX ++ "runLevel") env.DEFAULT_RUNLEVEL,
        extendsBundle := getStringD env cfg (PREFIX ++ "extends") "" }) := by
  simp only [loadManifest, getString, hn, hs, hvd, hvs, hver, hb, hscan]

/-- C2, the claim as stated fails: a specification with name, symbolic name
and a well-formed version but no vendor does not load; `loadManifest` throws
the not-found error for `manifest.vendor`. -/
theorem loadManifest_missing_vendor_fails :
    cfgNoVendor "manifest.name" = some "Sample"
    ∧ cfgNoVendor "manifest.symbolicName" = some "com.sample"
    ∧ cfgNoVendor "manifest.version" = some "1.0.0"
    ∧ envPlain.parseVersion (envPlain.expand "1.0.0") = some "1.0.0"
    ∧ cfgNoVendor "manifest.vendor" = none
    ∧ ∀ fuel, loadManifest envPlain cfgNoVendor fuel
        = some (.error (.notFound "manifest.vendor")) :=
  ⟨rfl, rfl, rfl, rfl, rfl, fun _ => rfl⟩

/-- C2, amended. When the version, if present, is well formed, the lazy-start
flag, if present, is a boolean, and the dependency scan reaches an empty name
within the fuel: `loadManifest` throws if and only if one of `manifest.name`,
`manifest.symbolicName`, `manifest.vendor`, `manifest.version` is absent, and
what it throws is a not-found error; when the four are present it returns a
`ManifestInfo` in which an absent copyright, activator class, activator
library and extends read as the expansion of the empty default, an absent
lazyStart as `false`, and an absent runLevel as the expansion of the default
run level (so, for an expansion that leaves these defaults unchanged, as empty
and as the default constant). -/
theorem loadManifest_required_keys {V : Type} (env : Env V) (cfg : Cfg) (k fuel : Nat)
    (hver : ∀ v, cfg (PREFIX ++ "version") = some v → (env.parseVersion (env.expand v)).isSome = true)
    (hbool : ∀ v, cfg (PREFIX ++ "lazyStart") = some v → (env.parseBool v).isSome = true)
    (hk : k < UINT32) (hstop : (readDependency env cfg k).1 = "") (hfuel : k < fuel)
    (hE : env.expand "" = "") (hR : env.expand env.DEFAULT_RUNLEVEL = env.DEFAULT_RUNLEVEL) :
    ((∃ e, loadManifest env cfg fuel = some (.error e)) ↔
        (cfg (PREFIX ++ "name") = none ∨ cfg (PREFIX ++ "symbolicName") = none
          ∨ cfg (PREFIX ++ "vendor") = none ∨ cfg (PREFIX ++ "version") = none))
    ∧ (∀ e, loadManifest env cfg fuel = some (.error e) → ∃ key, e = .notFound key)
    ∧ ((cfg (PREFIX ++ "name")).isSome = true → (cfg (PREFIX ++ "symbolicName")).isSome = true →
        (cfg (PREFIX ++ "vendor")).isSome = true → (cfg (PREFIX ++ "version")).isSome = true →
        ∃ info, loadManifest env cfg fuel = some (.ok info)
          ∧ (cfg (PREFIX ++ "copyright") = none → info.copyright = "")
          ∧ (cfg (PREFIX ++ "activator.class") = none → info.activatorClass = "")
          ∧ (cfg (PREFIX ++ "activator.library") = none → info.activatorLibrary = "")
          ∧ (cfg (PREFIX ++ "extends") = none → info.extendsBundle = "")
          ∧ (cfg (PREFIX ++ "lazyStart") = none → info.lazyStart = false)
          ∧ (cfg (PREFIX ++ "runLevel") = none → info.runLevel = env.DEFAULT_RUNLEVEL)) := by
  obtain ⟨l, hl⟩ := scanDependencies_terminates env cfg k hk hstop fuel 0 [] (Nat.zero_le _) (by omega)
  have hgb : ∃ b, getBool env cfg (PREFIX ++ "lazyStart") false = .ok b
      ∧ (cfg (PREFIX ++ "lazyStart") = none → b = false) := by
    unfold getBool
    cases hc : cfg (PREFIX ++ "lazyStart") with
    | none => exact ⟨false, rfl, fun _ => rfl⟩
    | some v =>
      have := hbool v hc
      cases hp : env.parseBool v with
      | none => simp [hp] at this
      | some b => exact ⟨b, by simp [hp], fun h => by simp at h⟩
  obtain ⟨b, hb, hbd⟩ := hgb
  cases hn : cfg (PREFIX ++ "name") with
  | none => simp [loadManifest, getString, hn]
  | some n =>
  cases hs : cfg (PREFIX ++ "symbolicName") with
  | none => simp [loadManifest, getString, hn, hs]
  | some s =>
  cases hvd : cfg (PREFIX ++ "vendor") with
  | none => simp [loadManifest, getString, hn, hs, hvd]
  | some vd =>
  cases hvs : cfg (PREFIX ++ "version") with
  | none => simp [loadManifest, getString, hn, hs, hvd, hvs, hb]
  | some vs =>
  have hp := hver vs hvs
  cases hpv : env.parseVersion (env.expand vs) with
  | none => simp [hpv] at hp
  | some ver =>
  have hok := loadManifest_ok env cfg fuel n s vd vs ver b l hn hs hvd hvs hpv hb hl
  refine ⟨by simp [hok], by simp [hok], fun _ _ _ _ => ⟨_, hok, ?_⟩⟩
  refine ⟨?_, ?_, ?_, ?_, hbd, ?_⟩ <;> intro h <;> simp [getStringD, h, hE, hR]

/-- C2, amended, at a specification with only the four required keys: it
loads, with the optional fields at their defaults. -/
theorem loadManifest_required_keys_witness :
    ((∃ e, loadManifest envPlain cfgMinimal 3 = some (.error e)) ↔
        (cfgMinimal (PREFIX ++ "name") = none ∨ cfgMinimal (PREFIX ++ "symbolicName") = none
          ∨ cfgMinimal (PREFIX ++ "vendor") = none ∨ cfgMinimal (PREFIX ++ "version") = none))
    ∧ (∀ e, loadManifest envPlain cfgMinimal 3 = some (.error e) → ∃ key, e = .notFound key)
    ∧ ((cfgMinimal (PREFIX ++ "name")).isSome = true →
        (cfgMinimal (PREFIX ++ "symbolicName")).isSome = true →
        (cfgMinimal (PREFIX ++ "vendor")).isSome = true →
        (cfgMinimal (PREFIX ++ "version")).isSome = true →
        ∃ info, loadManifest envPlain cfgMinimal 3 = some (.ok info)
          ∧ (cfgMinimal (PREFIX ++ "copyright") = none → info.copyright = "")
          ∧ (cfgMinimal (PREFIX ++ "activator.class") = none → info.activatorClass = "")
          ∧ (cfgMinimal (PREFIX ++ "activator.library") = none → info.activatorLibrary = "")
          ∧ (cfgMinimal (PREFIX ++ "extends") = none → info.extendsBundle = "")
          ∧ (cfgMinimal (PREFIX ++ "lazyStart") = none → info.lazyStart = false)
          ∧ (cfgMinimal (PREFIX ++ "runLevel") = none
              → info.runLevel = envPlain.DEFAULT_RUNLEVEL)) :=
  loadManifest_required_keys envPlain cfgMinimal 0 3
    (by
      intro v hv
      have : v = "1.0.0" := by
        have h : cfgMinimal (PREFIX ++ "version") = some "1.0.0" := by rfl
        rw [h] at hv
        exact (Option.some.inj hv).symm
      subst this
      rfl)
    (by
      intro v hv
      have h : cfgMinimal (PREFIX ++ "lazyStart") = none := by rfl
      rw [h] at hv
      cases hv)
    (by decide) (by rfl) (by decide) rfl rfl

/-! ## The manifest text -/

theorem empty_eq_false_iff (s : String) : empty s = false ↔ s ≠ "" := by
  simp [empty]

/-- Writing to a stream that already holds `p` only prefixes `p`. -/
theorem intercalate_go_shift (sep : String) :
    ∀ (l : List String) (p a : String),
      String.intercalate.go (p ++ a) sep l = p ++ String.intercalate.go a sep l := by
  intro l
  induction l with
  | nil => intro p a; rfl
  | cons x xs ih =>
    intro p a
    simp only [String.intercalate.go]
    rw [← ih p (a ++ sep ++ x)]
    simp [String.append_assoc]

/-- What the loop appends for one dependency when the range test is
resolved. -/
theorem write_entry (keys : Keys) (dep : Dependency) (out : String) :
    (if !empty dep.versions then
        out ++ dep.symbolicName ++ ";" ++ toLower keys.BUNDLE_VERSION ++ "=" ++ dep.versions
      else out ++ dep.symbolicName) = out ++ dependencyEntry keys dep := by
  unfold dependencyEntry
  by_cases h : dep.versions = ""
  · simp [h, empty]
  · simp [h, empty, String.append_assoc]

theorem writeDependencies_rest (keys : Keys) (indent : String) :
    ∀ (rest : List Dependency) (out : String),
      writeDependencies keys indent false rest out
        = String.intercalate.go out (", \\" ++ endl ++ indent) (rest.map (dependencyEntry keys)) := by
  intro rest
  induction rest with
  | nil => intro out; rfl
  | cons d ds ih =>
    intro out
    simp only [writeDependencies, Bool.not_false, if_true, List.map_cons, String.intercalate.go]
    rw [write_entry, ih]
    simp [String.append_assoc]

theorem writeDependencies_first (keys : Keys) (indent : String) (d : Dependency)
    (rest : List Dependency) (out : String) :
    writeDependencies keys indent true (d :: rest) out
      = out ++ String.intercalate (", \\" ++ endl ++ indent)
          ((d :: rest).map (dependencyEntry keys)) := by
  simp only [writeDependencies, Bool.not_true, Bool.false_eq_true, if_false, List.map_cons,
    String.intercalate]
  rw [write_entry, writeDependencies_rest, intercalate_go_shift]

theorem foldl_append_shift :
    ∀ (l : List String) (p a : String),
      List.foldl (fun r s => r ++ s) (p ++ a) l = p ++ List.foldl (fun r s => r ++ s) a l := by
  intro l
  induction l with
  | nil => intro p a; rfl
  | cons x xs ih =>
    intro p a
    simp only [List.foldl_cons]
    rw [← ih p (a ++ x)]
    simp [String.append_assoc]

theorem join_cons (x : String) (xs : List String) :
    String.join (x :: xs) = x ++ String.join xs := by
  unfold String.join
  simp only [List.foldl_cons]
  rw [show ("" : String) ++ x = x ++ "" by simp, foldl_append_shift]

theorem intercalate_go_join (sep : String) :
    ∀ (l : List String) (acc : String),
      String.intercalate.go acc sep l = acc ++ String.join (l.map (fun e => sep ++ e)) := by
  intro l
  induction l with
  | nil => intro acc; simp [String.intercalate.go, String.join]
  | cons x xs ih =>
    intro acc
    simp only [String.intercalate.go, List.map_cons, join_cons]
    rw [ih]
    simp [String.append_assoc]

/-- C3. `saveManifest` appends to the stream, in this order, the lines
version-header, Name, SymbolicName, Version, Vendor, Copyright, Activator,
RunLevel, ExtendsBundle, LazyStart, RequireBundle, each followed by a line
end. The first five and LazyStart (as `true` or `false`) are always there
with the field values verbatim; Copyright is there iff the copyright is not
empty, Activator (as `class;library=lib`) iff class and library are both not
empty, RunLevel iff the run level is not empty, ExtendsBundle iff it is not
empty, RequireBundle iff the dependency list is not empty. -/
theorem saveManifest_lines {V : Type} (keys : Keys) (versionToString : V → String)
    (info : ManifestInfo V) (out : String) :
    saveManifest keys versionToString info out =
      List.foldl (fun o line => o ++ line ++ endl) out
        ([ keys.MANIFEST_VERSION ++ ": " ++ keys.VERSION,
           keys.BUNDLE_NAME ++ ": " ++ info.name,
           keys.BUNDLE_SYMBOLICNAME ++ ": " ++ info.symbolicName,
           keys.BUNDLE_VERSION ++ ": " ++ versionToString info.version,
           keys.BUNDLE_VENDOR ++ ": " ++ info.vendor ]
         ++ (if info.copyright ≠ "" then [keys.BUNDLE_COPYRIGHT ++ ": " ++ info.copyright] else [])
         ++ (if info.activatorClass ≠ "" ∧ info.activatorLibrary ≠ "" then
              [keys.BUNDLE_ACTIVATOR ++ ": " ++ info.activatorClass ++ ";library="
                ++ info.activatorLibrary] else [])
         ++ (if info.runLevel ≠ "" then [keys.BUNDLE_RUNLEVEL ++ ": " ++ info.runLevel] else [])
         ++ (if info.extendsBundle ≠ "" then [keys.EXTENDS_BUNDLE ++ ": " ++ info.extendsBundle]
              else [])
         ++ [keys.BUNDLE_LAZYSTART ++ ": " ++ (if info.lazyStart then "true" else "false")]
         ++ (if info.requiredBundles ≠ [] then
              [keys.REQUIRE_BUNDLE ++ ": "
                ++ String.intercalate (", \\" ++ endl ++ spaces (keys.REQUIRE_BUNDLE.length + 2))
                    (info.requiredBundles.map (dependencyEntry keys))]
              else [])) := by
  unfold saveManifest
  have hdeps : ∀ o : String,
      (if (!info.requiredBundles.isEmpty) = true then
          writeDependencies keys (spaces (keys.REQUIRE_BUNDLE.length + 2)) true
            info.requiredBundles (o ++ keys.REQUIRE_BUNDLE ++ ": ") ++ endl
        else o)
      = List.foldl (fun o line => o ++ line ++ endl) o
          (if info.requiredBundles ≠ [] then
              [keys.REQUIRE_BUNDLE ++ ": "
                ++ String.intercalate (", \\" ++ endl ++ spaces (keys.REQUIRE_BUNDLE.length + 2))
                    (info.requiredBundles.map (dependencyEntry keys))]
            else []) := by
    intro o
    cases hd : info.requiredBundles with
    | nil => simp
    | cons d rest =>
      rw [writeDependencies_first]
      simp [String.append_assoc]
  simp only [hdeps, List.foldl_append, List.foldl_cons, List.foldl_nil]
  by_cases h1 : info.copyright = "" <;> by_cases h2 : info.activatorClass = "" <;>
    by_cases h3 : info.activatorLibrary = "" <;> by_cases h4 : info.runLevel = "" <;>
    by_cases h5 : info.extendsBundle = "" <;>
    simp [h1, h2, h3, h4, h5, empty, String.append_assoc]

/-- The text `saveManifest` writes is what it writes for the manifest
without dependencies, followed by the dependency block. -/
theorem saveManifest_split {V : Type} (keys : Keys) (versionToString : V → String)
    (info : ManifestInfo V) (out : String) :
    saveManifest keys versionToString info out =
      if !info.requiredBundles.isEmpty then
        writeDependencies keys (spaces (keys.REQUIRE_BUNDLE.length + 2)) true info.requiredBundles
          (saveManifest keys versionToString { info with requiredBundles := [] } out
            ++ keys.REQUIRE_BUNDLE ++ ": ") ++ endl
      else saveManifest keys versionToString { info with requiredBundles := [] } out := by
  rfl

/-- C4, the claim as stated fails: with the version key `Bundle-Version` of
the sample manifest, a dependency with a range is written as
`name;bundle-version=range`, which is not the `name;version=range` of the
claim. -/
theorem saveManifest_entry_not_version_attribute :
    writeDependencies sampleKeys (spaces (sampleKeys.REQUIRE_BUNDLE.length + 2)) true
        [⟨"com.appinf.osp.bundle1", "[1.0,2.0)"⟩] "Require-Bundle: "
      = "Require-Bundle: com.appinf.osp.bundle1;bundle-version=[1.0,2.0)"
    ∧ "Require-Bundle: " ++ specDependencyEntry ⟨"com.appinf.osp.bundle1", "[1.0,2.0)"⟩
      = "Require-Bundle: com.appinf.osp.bundle1;version=[1.0,2.0)"
    ∧ writeDependencies sampleKeys (spaces (sampleKeys.REQUIRE_BUNDLE.length + 2)) true
        [⟨"com.appinf.osp.bundle1", "[1.0,2.0)"⟩] "Require-Bundle: "
      ≠ "Require-Bundle: " ++ specDependencyEntry ⟨"com.appinf.osp.bundle1", "[1.0,2.0)"⟩ := by
  refine ⟨by rfl, by rfl, by decide⟩

/-- C4, amended. For a non-empty dependency list `d :: rest`, `saveManifest`
writes, after everything it writes for the same manifest without
dependencies, the RequireBundle key followed by `: `, the first entry, then
for each further entry `, \`, a line end, an indent of (length of the key + 2)
spaces and the entry, and a final line end; an entry is the symbolic name
when the range is empty and `symbolicName;k=range` otherwise, where `k` is
the Version key in lower case. -/
theorem saveManifest_requireBundle_block {V : Type} (keys : Keys) (versionToString : V → String)
    (info : ManifestInfo V) (out : String) (d : Dependency) (rest : List Dependency) :
    saveManifest keys versionToString { info with requiredBundles := d :: rest } out
      = saveManifest keys versionToString { info with requiredBundles := [] } out
        ++ (keys.REQUIRE_BUNDLE ++ ": " ++ dependencyEntry keys d
            ++ String.join (rest.map (fun e =>
                ", \\" ++ endl ++ spaces (keys.REQUIRE_BUNDLE.length + 2) ++ dependencyEntry keys e))
            ++ endl)
      ∧ (∀ e : Dependency, e.versions = "" → dependencyEntry keys e = e.symbolicName)
      ∧ (∀ e : Dependency, e.versions ≠ "" → dependencyEntry keys e
            = e.symbolicName ++ ";" ++ toLower keys.BUNDLE_VERSION ++ "=" ++ e.versions) := by
  refine ⟨?_, fun e h => by simp [dependencyEntry, h], fun e h => by simp [dependencyEntry, h]⟩
  rw [saveManifest_split]
  simp only [List.isEmpty_cons, Bool.not_false, if_true]
  rw [writeDependencies_first]
  simp only [List.map_cons, String.intercalate, intercalate_go_join, String.append_assoc,
    List.map_map, Function.comp_def]

/-! ## Lock acquisition -/

/-- A failed attempt only advances the call counter. -/
theorem createFile_failed (o : Outcomes) (w : World) (h : o.createFile w.createCalls ≠ .ok true) :
    FileLock.createFile o w = (false, { w with createCalls := w.createCalls + 1 }) := by
  unfold FileLock.createFile
  cases hc : o.createFile w.createCalls with
  | error e => rfl
  | ok b =>
    cases b with
    | true => exact absurd hc h
    | false => simp

/-- A successful attempt advances the call counter and leaves the sentinel
in place. -/
theorem createFile_succeeded (o : Outcomes) (w : World) (h : o.createFile w.createCalls = .ok true) :
    FileLock.createFile o w
      = (true, { w with createCalls := w.createCalls + 1, sentinel := true }) := by
  unfold FileLock.createFile
  simp [h]

/-- The retry loop entered after `attempts` failures, when the next `j`
attempts fail and the one after succeeds within the cap. -/
theorem acquireLoop_success (o : Outcomes) (file : String) :
    ∀ (j fuel attempts : Nat) (w : World),
      attempts + j + 1 ≤ 100 → j < fuel →
      (∀ i, i < j → o.createFile (w.createCalls + i) ≠ .ok true) →
      o.createFile (w.createCalls + j) = .ok true →
      FileLock.acquireLoop o file fuel attempts w
        = some (.ok (), { w with createCalls := w.createCalls + (j + 1),
                                 sleeps := w.sleeps + (j + 1), sentinel := true }) := by
  intro j
  induction j with
  | zero =>
    intro fuel attempts w hcap hf _ hok
    obtain ⟨f, rfl⟩ : ∃ f, fuel = f + 1 := ⟨fuel - 1, by omega⟩
    have hs := createFile_succeeded o (sleep w) (by simpa [sleep] using hok)
    rw [FileLock.acquireLoop]
    simp only [hs, if_neg (show ¬ attempts + 1 > 100 by omega)]
    simp [sleep]
  | succ j ih =>
    intro fuel attempts w hcap hf hfail hok
    obtain ⟨f, rfl⟩ : ∃ f, fuel = f + 1 := ⟨fuel - 1, by omega⟩
    have hs := createFile_failed o (sleep w) (by simpa [sleep] using hfail 0 (by omega))
    have hrec := ih f (attempts + 1) { sleep w with createCalls := (sleep w).createCalls + 1 }
      (by omega) (by omega)
      (fun i hi => by
        have := hfail (i + 1) (by omega)
        simpa [sleep, Nat.add_assoc, Nat.add_comm 1 i] using this)
      (by simpa [sleep, Nat.add_assoc, Nat.add_comm 1 j] using hok)
    rw [FileLock.acquireLoop]
    simp only [hs, if_neg (show ¬ attempts + 1 > 100 by omega)]
    simp only [Bool.not_false, if_true, hrec]
    simp [sleep, Nat.add_assoc, Nat.add_comm 1 (j + 1)]

/-- The retry loop entered after `attempts` failures, when every further
attempt fails: it gives up when the count of failures passes 100. -/
theorem acquireLoop_failure (o : Outcomes) (file : String) :
    ∀ (r fuel attempts : Nat) (w : World),
      attempts + r = 100 → r < fuel →
      (∀ i, i < r → o.createFile (w.createCalls + i) ≠ .ok true) →
      FileLock.acquireLoop o file fuel attempts w
        = some (.error (.fileError "Cannot acquire lock for bundle directory" file),
            { w with createCalls := w.createCalls + r, sleeps := w.sleeps + r }) := by
  intro r
  induction r with
  | zero =>
    intro fuel attempts w hcap hf _
    obtain ⟨f, rfl⟩ : ∃ f, fuel = f + 1 := ⟨fuel - 1, by omega⟩
    rw [FileLock.acquireLoop]
    simp only [if_pos (show attempts + 1 > 100 by omega)]
    simp
  | succ r ih =>
    intro fuel attempts w hcap hf hfail
    obtain ⟨f, rfl⟩ : ∃ f, fuel = f + 1 := ⟨fuel - 1, by omega⟩
    have hs := createFile_failed o (sleep w) (by simpa [sleep] using hfail 0 (by omega))
    have hrec := ih f (attempts + 1) { sleep w with createCalls := (sleep w).createCalls + 1 }
      (by omega) (by omega)
      (fun i hi => by
        have := hfail (i + 1) (by omega)
        simpa [sleep, Nat.add_assoc, Nat.add_comm 1 i] using this)
    rw [FileLock.acquireLoop]
    simp only [hs, if_neg (show ¬ attempts + 1 > 100 by omega)]
    simp only [Bool.not_false, if_true, hrec]
    simp [sleep, Nat.add_assoc, Nat.add_comm 1 r]

set_option maxRecDepth 100000 in
/-- C5, the claim as stated fails: when every attempt to create the sentinel
fails, `acquire` throws the lock error after 101 creation attempts (and 100
sleeps), not after 100; and when the 101st attempt is the first to succeed,
`acquire` returns normally. -/
theorem acquire_gives_up_after_101_attempts :
    FileLock.acquire Outcomes.neverCreated "b.lock" 101 World.initial
      = some (.error (.fileError "Cannot acquire lock for bundle directory" "b.lock"),
          ⟨false, false, 101, 100, 0, []⟩)
    ∧ FileLock.acquire (Outcomes.createdAt 100) "b.lock" 101 World.initial
      = some (.ok (), ⟨true, false, 101, 100, 0, []⟩) := by
  constructor <;> rfl

/-- C5, amended. With fuel for the 101 attempts the loop can make:
when every attempt to create the sentinel fails, `acquire` throws the lock
error after exactly 101 attempts and 100 sleeps; when the `n`-th attempt
(`1 ≤ n ≤ 101`) is the first to succeed, `acquire` returns normally after
exactly `n` attempts and `n - 1` sleeps, with the sentinel in place. -/
theorem acquire_attempts (o : Outcomes) (file : String) (fuel : Nat) (w : World)
    (hfuel : 101 ≤ fuel) :
    ((∀ i, i < 101 → o.createFile (w.createCalls + i) ≠ .ok true) →
      FileLock.acquire o file fuel w
        = some (.error (.fileError "Cannot acquire lock for bundle directory" file),
            { w with createCalls := w.createCalls + 101, sleeps := w.sleeps + 100 }))
    ∧ (∀ n, 1 ≤ n → n ≤ 101 →
        (∀ i, i < n - 1 → o.createFile (w.createCalls + i) ≠ .ok true) →
        o.createFile (w.createCalls + (n - 1)) = .ok true →
        FileLock.acquire o file fuel w
          = some (.ok (), { w with createCalls := w.createCalls + n,
                                   sleeps := w.sleeps + (n - 1), sentinel := true })) := by
  constructor
  · intro hfail
    have h0 := createFile_failed o w (by simpa using hfail 0 (by omega))
    have hloop := acquireLoop_failure o file 100 fuel 0
      { w with createCalls := w.createCalls + 1 } (by omega) (by omega)
      (fun i hi => by
        have := hfail (i + 1) (by omega)
        simpa [Nat.add_assoc, Nat.add_comm 1 i] using this)
    unfold FileLock.acquire
    simp only [h0, Bool.not_false, if_true, hloop]
  · intro n h1 h101 hfail hok
    obtain ⟨m, rfl⟩ : ∃ m, n = m + 1 := ⟨n - 1, by omega⟩
    simp only [Nat.add_sub_cancel] at hfail hok
    cases m with
    | zero =>
      have h0 := createFile_succeeded o w (by simpa using hok)
      unfold FileLock.acquire
      simp [h0]
    | succ j =>
      have h0 := createFile_failed o w (by simpa using hfail 0 (by omega))
      have hloop := acquireLoop_success o file j fuel 0
        { w with createCalls := w.createCalls + 1 } (by omega) (by omega)
        (fun i hi => by
          have := hfail (i + 1) (by omega)
          simpa [Nat.add_assoc, Nat.add_comm 1 i] using this)
        (by simpa [Nat.add_assoc, Nat.add_comm 1 j] using hok)
      unfold FileLock.acquire
      simp only [h0, Bool.not_false, if_true, hloop]
      simp [Nat.add_assoc, Nat.add_comm 1 (j + 1)]

/-- C5, amended, when the third attempt is the first to succeed: `acquire`
returns after three attempts and two sleeps. -/
theorem acquire_attempts_witness :
    FileLock.acquire (Outcomes.createdAt 2) "b.lock" 101 World.initial
      = some (.ok (), { World.initial with createCalls := World.initial.createCalls + 3,
                                           sleeps := World.initial.sleeps + (3 - 1),
                                           sentinel := true }) :=
  (acquire_attempts (Outcomes.createdAt 2) "b.lock" 101 World.initial (by decide)).2 3
    (by decide) (by decide)
    (by
      intro i hi h
      have hi2 : i < 2 := hi
      simp [Outcomes.createdAt, World.initial] at h
      omega)
    (by rfl)

/-! ## The staging directory and the lock in handleConfig -/

theorem Preserves.call {α : Type} (f : World → α) (o : Outcomes) (site : Site)
    (effect : World → World) (h : ∀ w, f (effect w) = f w) : Preserves f (call o site effect) := by
  intro w
  unfold BundleCreator.call
  cases o.fault site <;> simp [h]

theorem Preserves.andThen {α : Type} (f : World → α) (a b : Step) (ha : Preserves f a)
    (hb : Preserves f b) : Preserves f (andThen a b) := by
  intro w
  unfold BundleCreator.andThen
  have h1 := ha w
  rcases hr : a w with ⟨r, w'⟩
  rw [hr] at h1
  cases r with
  | error e => simpa using h1
  | ok u =>
    have h2 := hb w'
    simp only [] at h1 ⊢
    rw [h2, h1]

theorem Preserves.skip {α : Type} (f : World → α) : Preserves f skip := fun _ => rfl

theorem assembleAndPackage_preserves {α : Type} (f : World → α) (app : BundleCreatorApplication)
    (o : Outcomes) (h : ∀ w c, f { w with compressed := c } = f w) :
    Preserves f (assembleAndPackage app o) := by
  unfold assembleAndPackage
  refine Preserves.andThen _ _ _ (Preserves.call _ _ _ _ fun _ => rfl) ?_
  refine Preserves.andThen _ _ _ (Preserves.call _ _ _ _ fun _ => rfl) ?_
  refine Preserves.andThen _ _ _ (Preserves.call _ _ _ _ fun _ => rfl) ?_
  refine Preserves.andThen _ _ _ (Preserves.call _ _ _ _ fun _ => rfl) ?_
  refine Preserves.andThen _ _ _ (Preserves.call _ _ _ _ fun w => h w _) ?_
  exact Preserves.andThen _ _ _ (Preserves.call _ _ _ _ fun _ => rfl)
    (Preserves.call _ _ _ _ fun _ => rfl)

theorem removeStaging_preserves {α : Type} (f : World → α) (o : Outcomes) (s1 s2 : Site)
    (h : ∀ w b, f { w with staging := b } = f w) : Preserves f (removeStaging o s1 s2) := by
  unfold removeStaging
  exact Preserves.andThen _ _ _ (Preserves.call _ _ _ _ fun _ => rfl)
    (Preserves.call _ _ _ _ fun w => h w _)

theorem removeStaging_ok (o : Outcomes) (s1 s2 : Site) (h1 : o.fault s1 = none)
    (h2 : o.fault s2 = none) (w : World) :
    removeStaging o s1 s2 w = (.ok (), { w with staging := false }) := by
  simp [removeStaging, andThen, call, h1, h2]

theorem tryBlock_preserves {α : Type} (f : World → α) (app : BundleCreatorApplication)
    (o : Outcomes) (hc : ∀ w c, f { w with compressed := c } = f w)
    (hs : ∀ w b, f { w with staging := b } = f w) : Preserves f (tryBlock app o) := by
  unfold tryBlock
  refine Preserves.andThen _ _ _ (assembleAndPackage_preserves f app o hc) ?_
  split
  · exact removeStaging_preserves f o _ _ hs
  · exact Preserves.skip f

theorem catchBlock_preserves {α : Type} (f : World → α) (app : BundleCreatorApplication)
    (o : Outcomes) (e : Exc) (hs : ∀ w b, f { w with staging := b } = f w) :
    Preserves f (catchBlock app o e) := by
  intro w
  unfold catchBlock
  have hp : Preserves f
      (if !app._keep then removeStaging o .removeFailedChildren .removeFailed else skip) := by
    split
    · exact removeStaging_preserves f o _ _ hs
    · exact Preserves.skip f
  have := hp w
  rcases hr : (if !app._keep then removeStaging o .removeFailedChildren .removeFailed else skip) w
    with ⟨r, w'⟩
  rw [hr] at this
  cases r <;> simpa using this

theorem catchBlock_throws (app : BundleCreatorApplication) (o : Outcomes) (e : Exc) (w : World) :
    ∃ e', (catchBlock app o e w).1 = .error e' := by
  unfold catchBlock
  rcases (if !app._keep then removeStaging o .removeFailedChildren .removeFailed else skip) w
    with ⟨r, w'⟩
  cases r with
  | error e' => exact ⟨e', rfl⟩
  | ok u => exact ⟨e, rfl⟩

theorem Preserves.tryCatch {α : Type} (f : World → α) (body : Step) (handler : Exc → Step)
    (hb : Preserves f body) (hh : ∀ e, Preserves f (handler e)) :
    Preserves f (tryCatch body handler) := by
  intro w
  unfold BundleCreator.tryCatch
  have h1 := hb w
  rcases hr : body w with ⟨r, w'⟩
  rw [hr] at h1
  cases r with
  | ok u => simpa using h1
  | error e =>
    have h2 := hh e w'
    simp only [] at h1 ⊢
    rw [h2, h1]

theorem handleConfigLocked_preserves {α : Type} (f : World → α) (app : BundleCreatorApplication)
    (o : Outcomes) (hc : ∀ w c, f { w with compressed := c } = f w)
    (hs : ∀ w b, f { w with staging := b } = f w) : Preserves f (handleConfigLocked app o) := by
  intro w
  unfold handleConfigLocked
  refine Preserves.andThen f _ _ ?_ (Preserves.andThen f _ _
    (Preserves.call f o _ _ fun w => hs w _)
    (Preserves.tryCatch f _ _ (tryBlock_preserves f app o hc hs)
      (fun e => catchBlock_preserves f app o e hs))) w
  split
  · exact removeStaging_preserves f o _ _ hs
  · exact Preserves.skip f

/-- The locked part of `handleConfig` once the stale directory is removed
and the staging directory recreated. -/
theorem handleConfigLocked_recreated (app : BundleCreatorApplication) (o : Outcomes) (w : World)
    (h3 : o.fault .removeStaleChildren = none) (h4 : o.fault .removeStale = none)
    (h5 : o.fault .createStaging = none) :
    handleConfigLocked app o w
      = tryCatch (tryBlock app o) (catchBlock app o) { w with staging := true } := by
  unfold handleConfigLocked
  cases hs : w.staging with
  | false =>
    have hw : ({ w with staging := true } : World) = { w with staging := true } := rfl
    simp [andThen, skip, call, h5]
  | true =>
    simp [andThen, removeStaging_ok o _ _ h3 h4, call, h5]

theorem destroy_staging (o : Outcomes) (w : World) : (FileLock.destroy o w).staging = w.staging := by
  unfold FileLock.destroy FileLock.release call
  cases o.fault .release <;> rfl

theorem destroy_releaseCalls (o : Outcomes) (w : World) :
    (FileLock.destroy o w).releaseCalls = w.releaseCalls + 1 := by
  unfold FileLock.destroy FileLock.release call
  cases o.fault .release <;> rfl

theorem destroy_sentinel (o : Outcomes) (w : World) (h : o.fault .release = none) :
    (FileLock.destroy o w).sentinel = false := by
  unfold FileLock.destroy FileLock.release call
  simp [h]

/-- The start of `handleConfig` up to the lock, when the two calls before
the lock do not throw. -/
theorem handleConfig_reaches_lock (app : BundleCreatorApplication) (o : Outcomes) (file : String)
    (fuel : Nat) (w : World) (h1 : o.fault .createOutputDir = none)
    (h2 : o.fault .loadManifest = none) :
    handleConfig app o file fuel w =
      match FileLock.acquire o file fuel w with
      | none => none
      | some (.error e, w) => some (.error e, w)
      | some (.ok _, w) =>
        some ((handleConfigLocked app o w).1, FileLock.destroy o (handleConfigLocked app o w).2) := by
  simp [handleConfig, andThen, call, h1, h2]

theorem removeStaging_removed (o : Outcomes) (s1 s2 : Site) (w w' : World) (u : Unit)
    (h : removeStaging o s1 s2 w = (.ok u, w')) : w'.staging = false := by
  unfold removeStaging andThen call at h
  cases h1 : o.fault s1 <;> cases h2 : o.fault s2 <;> simp [h1, h2] at h
  rw [← h]

/-- A `try` block that ends normally leaves the staging directory in place
exactly when it was there and the keep option is set. -/
theorem tryBlock_ok_staging (app : BundleCreatorApplication) (o : Outcomes) (w w' : World)
    (u : Unit) (h : tryBlock app o w = (.ok u, w')) :
    w'.staging = true ↔ (app._keep = true ∧ w.staging = true) := by
  have hpres := assembleAndPackage_preserves (fun w => w.staging) app o (fun _ _ => rfl) w
  unfold tryBlock andThen at h
  rcases hr : assembleAndPackage app o w with ⟨r, wa⟩
  rw [hr] at h hpres
  simp only [] at hpres
  cases r with
  | error e => simp at h
  | ok u' =>
    simp only [] at h
    cases hk : app._keep with
    | true =>
      simp only [hk, Bool.not_true, Bool.false_eq_true, if_false, skip] at h
      have : wa = w' := by simpa using h
      rw [← this, hpres]
      simp
    | false =>
      simp only [hk, Bool.not_false, if_true] at h
      have := removeStaging_removed o _ _ wa w' u h
      simp [this]

/-- C6, the claim as stated fails: with the keep option set, when `handleBin`
throws, `handleConfig` rethrows the error and the staging directory is still
there at the end. -/
theorem handleConfig_failure_keeps_staging_with_keep :
    appKeep._keep = true
    ∧ handleConfig appKeep (Outcomes.failingAt .handleBin (.other "handleBin")) "b.lock" 101
        World.initial
      = some (.error (.other "handleBin"), ⟨false, true, 1, 0, 1, []⟩) := by
  constructor <;> rfl

/-- C6, amended. In a run of `handleConfig` that acquired the lock and
recreated the staging directory: if the handlers or the archive build throw
`e`, then, when the keep option is not set and the removal in the handler
does not throw, the staging directory does not exist at the end and `e` is
rethrown; when the keep option is set, `e` is rethrown and the staging
directory is left in place. If the run ends normally, the staging directory
exists at the end if and only if the keep option is set. -/
theorem handleConfig_staging_directory (app : BundleCreatorApplication) (o : Outcomes)
    (file : String) (fuel : Nat) (w w1 : World)
    (h1 : o.fault .createOutputDir = none) (h2 : o.fault .loadManifest = none)
    (hacq : FileLock.acquire o file fuel w = some (.ok (), w1))
    (h3 : o.fault .removeStaleChildren = none) (h4 : o.fault .removeStale = none)
    (h5 : o.fault .createStaging = none) :
    (∀ e w3, assembleAndPackage app o { w1 with staging := true } = (.error e, w3) →
        (app._keep = false → o.fault .removeFailedChildren = none →
          o.fault .removeFailed = none →
          ∃ wf, handleConfig app o file fuel w = some (.error e, wf) ∧ wf.staging = false)
        ∧ (app._keep = true →
          ∃ wf, handleConfig app o file fuel w = some (.error e, wf) ∧ wf.staging = true))
    ∧ (∀ wf, handleConfig app o file fuel w = some (.ok (), wf) →
        (wf.staging = true ↔ app._keep = true)) := by
  have hH : handleConfig app o file fuel w
      = some ((tryCatch (tryBlock app o) (catchBlock app o) { w1 with staging := true }).1,
          FileLock.destroy o
            (tryCatch (tryBlock app o) (catchBlock app o) { w1 with staging := true }).2) := by
    rw [handleConfig_reaches_lock app o file fuel w h1 h2, hacq]
    simp only [handleConfigLocked_recreated app o w1 h3 h4 h5]
  constructor
  · intro e w3 hap
    have hst : w3.staging = true := by
      have := assembleAndPackage_preserves (fun w => w.staging) app o (fun _ _ => rfl)
        { w1 with staging := true }
      rw [hap] at this
      simpa using this
    have htry : tryBlock app o { w1 with staging := true } = (.error e, w3) := by
      simp [tryBlock, andThen, hap]
    constructor
    · intro hk f1 f2
      have hT : tryCatch (tryBlock app o) (catchBlock app o) { w1 with staging := true }
          = (.error e, { w3 with staging := false }) := by
        simp [tryCatch, htry, catchBlock, hk, removeStaging_ok o _ _ f1 f2]
      rw [hT] at hH
      exact ⟨_, hH, by rw [destroy_staging]⟩
    · intro hk
      have hT : tryCatch (tryBlock app o) (catchBlock app o) { w1 with staging := true }
          = (.error e, w3) := by
        simp [tryCatch, htry, catchBlock, hk, skip]
      rw [hT] at hH
      exact ⟨_, hH, by rw [destroy_staging]; exact hst⟩
  · intro wf hok
    rw [hH] at hok
    rcases hr : tryBlock app o { w1 with staging := true } with ⟨r, w'⟩
    cases r with
    | error e =>
      obtain ⟨e', he'⟩ := catchBlock_throws app o e w'
      simp [tryCatch, hr, he'] at hok
    | ok u =>
      have hs := tryBlock_ok_staging app o _ w' u hr
      simp only [tryCatch, hr, Option.some.injEq, Prod.mk.injEq, true_and] at hok
      rw [← hok, destroy_staging, hs]
      simp

/-- C6, amended, in a run without the keep option whose archive build
throws: the error is rethrown and the staging directory is gone. -/
theorem handleConfig_staging_directory_witness :
    ∃ wf, handleConfig appDefault (Outcomes.failingAt .addRecursive (.other "zip")) "b.lock" 101
        World.initial = some (.error (.other "zip"), wf) ∧ wf.staging = false :=
  ((handleConfig_staging_directory appDefault (Outcomes.failingAt .addRecursive (.other "zip"))
      "b.lock" 101 World.initial ⟨true, false, 1, 0, 0, []⟩ rfl rfl rfl rfl rfl rfl).1
    (.other "zip") ⟨true, true, 1, 0, 0, []⟩ rfl).1 rfl rfl rfl

theorem createFile_releaseCalls (o : Outcomes) (w : World) :
    (FileLock.createFile o w).2.releaseCalls = w.releaseCalls := by
  unfold FileLock.createFile
  cases o.createFile w.createCalls <;> rfl

theorem acquireLoop_releaseCalls (o : Outcomes) (file : String) :
    ∀ (fuel attempts : Nat) (w : World) (r : Except Exc Unit) (w1 : World),
      FileLock.acquireLoop o file fuel attempts w = some (r, w1) →
      w1.releaseCalls = w.releaseCalls := by
  intro fuel
  induction fuel with
  | zero => intro attempts w r w1 h; simp [FileLock.acquireLoop] at h
  | succ f ih =>
    intro attempts w r w1 h
    rw [FileLock.acquireLoop] at h
    simp only [] at h
    split at h
    · simp only [Option.some.injEq, Prod.mk.injEq] at h
      rw [← h.2]
    · split at h
      · have := ih _ _ _ _ h
        rw [this, createFile_releaseCalls]
        rfl
      · simp only [Option.some.injEq, Prod.mk.injEq] at h
        rw [← h.2, createFile_releaseCalls]
        rfl

theorem acquire_releaseCalls (o : Outcomes) (file : String) (fuel : Nat) (w : World)
    (r : Except Exc Unit) (w1 : World) (h : FileLock.acquire o file fuel w = some (r, w1)) :
    w1.releaseCalls = w.releaseCalls := by
  unfold FileLock.acquire at h
  simp only [] at h
  split at h
  · rw [acquireLoop_releaseCalls o file _ _ _ _ _ h, createFile_releaseCalls]
  · simp only [Option.some.injEq, Prod.mk.injEq] at h
    rw [← h.2, createFile_releaseCalls]

/-- C7, the claim as stated fails: when the removal of the sentinel in
`release` throws, the error is swallowed, `handleConfig` ends normally after
one call of `release`, and the sentinel is still there. -/
theorem handleConfig_sentinel_left_when_release_throws :
    handleConfig appDefault (Outcomes.failingAt .release (.fileError "cannot remove" "b.lock"))
        "b.lock" 101 World.initial
      = some (.ok (), ⟨true, false, 1, 0, 1, [⟨none, .CM_AUTO⟩]⟩) := by
  rfl

/-- C7, amended. In a run of `handleConfig` that reaches the lock: when the
acquisition succeeds, `release` is called exactly once, whatever the locked
part (cleaning, assembling, packaging, cleanup) does, the outcome of
`handleConfig` is the outcome of the locked part whether `release` throws or
not, and the sentinel is absent at the end when `release` does not throw;
when the acquisition throws, that error leaves `handleConfig` and `release`
is not called. -/
theorem handleConfig_release_once (app : BundleCreatorApplication) (o : Outcomes)
    (file : String) (fuel : Nat) (w : World)
    (h1 : o.fault .createOutputDir = none) (h2 : o.fault .loadManifest = none) :
    (∀ w1, FileLock.acquire o file fuel w = some (.ok (), w1) →
        ∃ wf, handleConfig app o file fuel w = some ((handleConfigLocked app o w1).1, wf)
          ∧ wf.releaseCalls = w.releaseCalls + 1
          ∧ (o.fault .release = none → wf.sentinel = false))
    ∧ (∀ e w1, FileLock.acquire o file fuel w = some (.error e, w1) →
        handleConfig app o file fuel w = some (.error e, w1)
          ∧ w1.releaseCalls = w.releaseCalls) := by
  have hH := handleConfig_reaches_lock app o file fuel w h1 h2
  constructor
  · intro w1 hacq
    rw [hacq] at hH
    refine ⟨_, hH, ?_, fun hr => destroy_sentinel o _ hr⟩
    have hL : (handleConfigLocked app o w1).2.releaseCalls = w1.releaseCalls :=
      handleConfigLocked_preserves (fun w => w.releaseCalls) app o (fun _ _ => rfl)
        (fun _ _ => rfl) w1
    rw [destroy_releaseCalls, hL, acquire_releaseCalls o file fuel w _ w1 hacq]
  · intro e w1 hacq
    rw [hacq] at hH
    exact ⟨hH, acquire_releaseCalls o file fuel w _ w1 hacq⟩

/-- C7, amended, in a run whose `handleOther` throws: `release` is called
once, the sentinel is gone, and the error of `handleOther` is what leaves
`handleConfig`. -/
theorem handleConfig_release_once_witness :
    ∃ wf, handleConfig appDefault (Outcomes.failingAt .handleOther (.other "copy")) "b.lock" 101
          World.initial
        = some ((handleConfigLocked appDefault (Outcomes.failingAt .handleOther (.other "copy"))
                  ⟨true, false, 1, 0, 0, []⟩).1, wf)
      ∧ wf.releaseCalls = World.initial.releaseCalls + 1
      ∧ ((Outcomes.failingAt .handleOther (.other "copy")).fault .release = none →
          wf.sentinel = false) :=
  (handleConfig_release_once appDefault (Outcomes.failingAt .handleOther (.other "copy")) "b.lock"
    101 World.initial rfl rfl).1 ⟨true, false, 1, 0, 0, []⟩ rfl

/-! ## Platform directories -/

theorem makeValidFileName_chars (name : String) :
    ∀ c ∈ (makeValidFileName name).data, isalnum c = true ∨ c = '_' := by
  intro c hc
  simp only [makeValidFileName, List.mem_map] at hc
  obtain ⟨d, _, hd⟩ := hc
  by_cases h : isalnum d = true
  · left
    simp [h] at hd
    rw [← hd]
    exact h
  · right
    simp [h] at hd
    exact hd.symm

theorem makeValidFileName_get (name : String) (i : Nat) :
    (makeValidFileName name).data[i]?
      = (name.data[i]?).map (fun c => if isalnum c then c else '_') := by
  simp only [makeValidFileName, List.getElem?_map]
  cases name.data[i]? with
  | none => rfl
  | some c => by_cases h : isalnum c = true <;> simp [h]

/-- C9, the claim as stated fails: a value given through `--osname` becomes
the target name as it is; `Windows NT` keeps its space, which is neither
alphanumeric nor an underscore. -/
theorem handleOSName_keeps_value_unsanitized :
    (handleOSName appDefault "osname" "Windows NT")._osName = "Windows NT"
    ∧ ¬ (∀ c ∈ (handleOSName appDefault "osname" "Windows NT")._osName.data,
          isalnum c = true ∨ c = '_')
    ∧ makeValidFileName "Windows NT" = "Windows_NT" := by
  refine ⟨rfl, ?_, by rfl⟩
  intro h
  have := h ' ' (by decide)
  revert this
  decide

/-- C9, amended. The defaults the constructor derives from the environment
are sanitized: `_osName` and `_osArch` consist only of alphanumeric
characters and underscores, have the length of the environment value, and
agree with it at every alphanumeric position, every other character being
`_`. A value given through `--osname` or `--osarch` replaces the default as
it is. -/
theorem osName_osArch_defaults_sanitized (osName osArchitecture current : String)
    (app : BundleCreatorApplication) (name value : String) :
    (∀ c ∈ (BundleCreatorApplication.new osName osArchitecture current)._osName.data,
        isalnum c = true ∨ c = '_')
    ∧ (∀ c ∈ (BundleCreatorApplication.new osName osArchitecture current)._osArch.data,
        isalnum c = true ∨ c = '_')
    ∧ (∀ i : Nat, (BundleCreatorApplication.new osName osArchitecture current)._osName.data[i]?
        = (osName.data[i]?).map (fun c => if isalnum c then c else '_'))
    ∧ (∀ i : Nat, (BundleCreatorApplication.new osName osArchitecture current)._osArch.data[i]?
        = (osArchitecture.data[i]?).map (fun c => if isalnum c then c else '_'))
    ∧ (BundleCreatorApplication.new osName osArchitecture current)._osName.length = osName.length
    ∧ (BundleCreatorApplication.new osName osArchitecture current)._osArch.length
        = osArchitecture.length
    ∧ (handleOSName app name value)._osName = value
    ∧ (handleOSArch app name value)._osArch = value := by
  refine ⟨makeValidFileName_chars osName, makeValidFileName_chars osArchitecture,
    makeValidFileName_get osName, makeValidFileName_get osArchitecture, ?_, ?_, rfl, rfl⟩
  · exact List.length_map _ _
  · exact List.length_map _ _

theorem mem_setInsert (set : List String) (x e : String) :
    e ∈ setInsert set x ↔ e ∈ set ∨ e = x := by
  unfold setInsert
  by_cases h : x ∈ set
  · have hc : set.contains x = true := by simpa using h
    simp only [hc, if_true]
    constructor
    · exact Or.inl
    · rintro (h' | rfl)
      · exact h'
      · exact h
  · have hc : set.contains x = false := by simpa using h
    simp only [hc, Bool.false_eq_true, if_false, List.mem_append, List.mem_singleton]

theorem mem_foldl_setInsert (tok : List String) :
    ∀ (set : List String) (e : String),
      e ∈ tok.foldl setInsert set ↔ e ∈ set ∨ e ∈ tok := by
  induction tok with
  | nil => intro set e; simp
  | cons t ts ih =>
    intro set e
    simp only [List.foldl_cons, ih, mem_setInsert, List.mem_cons]
    tauto

/-- C10. `--no-deflate` without a value sets the no-deflate flag, so that
the method handed to the archive build is `CM_STORE`, and leaves the store
extensions unchanged. With a value, the store extensions become the previous
ones plus exactly the tokens of the value (split at `,` and `;`, trimmed,
empty ones dropped) and the method is not changed, so it stays `CM_AUTO`
when it was. When the option is not given the method is `CM_AUTO` and there
are no store extensions. The archive build of `handleConfig` is handed this
method, and the store extensions when there are any. -/
theorem handleNoDeflate_policy (app : BundleCreatorApplication) (name value : String)
    (osName osArchitecture current : String) (o : Outcomes) (w : World) :
    ((handleNoDeflate app name "")._noDeflate = true
      ∧ compressionMethod (handleNoDeflate app name "") = .CM_STORE
      ∧ (handleNoDeflate app name "")._storeExtensions = app._storeExtensions)
    ∧ (value ≠ "" →
        (∀ e, e ∈ (handleNoDeflate app name value)._storeExtensions
            ↔ e ∈ app._storeExtensions ∨ e ∈ StringTokenizer value ",;")
        ∧ compressionMethod (handleNoDeflate app name value) = compressionMethod app
        ∧ (app._noDeflate = false →
            compressionMethod (handleNoDeflate app name value) = .CM_AUTO))
    ∧ (compressionMethod (BundleCreatorApplication.new osName osArchitecture current) = .CM_AUTO
      ∧ (BundleCreatorApplication.new osName osArchitecture current)._storeExtensions = [])
    ∧ ((assembleAndPackage app o w).1 = .ok () →
        (assembleAndPackage app o w).2.compressed
          = w.compressed ++
              [{ storeExtensions :=
                   if app._storeExtensions = [] then none else some app._storeExtensions
                 method := if app._noDeflate then .CM_STORE else .CM_AUTO }]) := by
  refine ⟨⟨rfl, rfl, rfl⟩, ?_, ⟨rfl, rfl⟩, ?_⟩
  · intro hv
    have he : empty value = false := by simpa [empty] using hv
    refine ⟨fun e => ?_, ?_, ?_⟩
    · simp only [handleNoDeflate, he, Bool.false_eq_true, if_false]
      exact mem_foldl_setInsert _ _ _
    · simp [handleNoDeflate, he, compressionMethod]
    · intro hn
      simp [handleNoDeflate, he, compressionMethod, hn]
  · intro hok
    unfold assembleAndPackage andThen call at hok ⊢
    cases h1 : o.fault .handleBin <;> cases h2 : o.fault .handleMeta <;>
      cases h3 : o.fault .handleOther <;> cases h4 : o.fault .openArchive <;>
      cases h5 : o.fault .addRecursive <;> cases h6 : o.fault .closeCompress <;>
      cases h7 : o.fault .closeArchive <;>
      simp [h1, h2, h3, h4, h5, h6, h7] at hok ⊢
    cases hs : app._storeExtensions <;> simp [compressionMethod]

/-- C10, with the value ` zip; jar ,,png`: the store extensions become `zip`,
`jar` and `png`, and the method stays automatic. -/
theorem handleNoDeflate_policy_witness :
    (∀ e, e ∈ (handleNoDeflate appDefault "no-deflate" " zip; jar ,,png")._storeExtensions
        ↔ e ∈ appDefault._storeExtensions ∨ e ∈ StringTokenizer " zip; jar ,,png" ",;")
    ∧ compressionMethod (handleNoDeflate appDefault "no-deflate" " zip; jar ,,png")
        = compressionMethod appDefault
    ∧ (appDefault._noDeflate = false →
        compressionMethod (handleNoDeflate appDefault "no-deflate" " zip; jar ,,png") = .CM_AUTO) :=
  (handleNoDeflate_policy appDefault "no-deflate" " zip; jar ,,png" "Linux" "x86_64" "/tmp"
    Outcomes.allGood World.initial).2.1 (by decide)

/-- The store extensions after `--no-deflate " zip; jar ,,png"`. -/
theorem handleNoDeflate_sample :
    (handleNoDeflate appDefault "no-deflate" " zip; jar ,,png")._storeExtensions
      = ["zip", "jar", "png"] := by rfl

/-! ## Defined properties -/

theorem find_none (l : List Char) (c : Char) (h : c ∉ l) : find l c = none := by
  induction l with
  | nil => rfl
  | cons x xs ih =>
    simp only [List.mem_cons, not_or] at h
    simp [find, Ne.symm h.1, ih h.2]

theorem find_first (n v : List Char) (c : Char) (h : c ∉ n) :
    find (n ++ c :: v) c = some n.length := by
  induction n with
  | nil => simp [find]
  | cons x xs ih =>
    simp only [List.mem_cons, not_or] at h
    simp [find, Ne.symm h.1, ih h.2]

theorem drop_take_after (n v : List Char) (c : Char) :
    ((n ++ c :: v).drop (n.length + 1)).take ((n ++ c :: v).length - n.length) = v := by
  induction n with
  | nil => simp
  | cons x xs ih =>
    simp only [List.cons_append, List.length_cons, List.drop_succ_cons, Nat.add_sub_add_right]
    exact ih

theorem take_before (n v : List Char) (c : Char) :
    ((n ++ c :: v).drop 0).take n.length = n := by
  simp

/-- A definition with a first `=` is split into the text before it and all
the text after it. -/
theorem splitDefine_at_first_equals (n v : String) (h : '=' ∉ n.data) :
    splitDefine (n ++ "=" ++ v) = (n, v) := by
  have hd : (n ++ "=" ++ v).data = n.data ++ '=' :: v.data := by
    simp [String.data_append]
  have hd' : ((n ++ "=").append v).data = n.data ++ '=' :: v.data := hd
  unfold splitDefine
  rw [hd, find_first _ _ _ h]
  simp only [assign, hd, hd', String.length, drop_take_after, take_before]

/-- A definition without `=` is a name with the empty value. -/
theorem splitDefine_without_equals (d : String) (h : '=' ∉ d.data) :
    splitDefine d = (d, "") := by
  unfold splitDefine
  rw [find_none _ _ h]

/-- After a sequence of definitions a name is bound to the value of the last
definition of that name, and keeps its earlier binding when none defines it. -/
theorem defines_last (defs : List String) : ∀ (config : Configuration) (key : String),
    defs.foldl (fun c d => handleDefine c "define" d) config key =
      match defs.reverse.find? (fun d => (splitDefine d).1 == key) with
      | some d => some (splitDefine d).2
      | none => config key := by
  induction defs using List.reverseRecOn with
  | nil => intro config key; rfl
  | append_singleton ds d ih =>
    intro config key
    simp only [List.foldl_append, List.foldl_cons, List.foldl_nil,
      List.reverse_append, List.reverse_cons, List.reverse_nil, List.nil_append,
      List.singleton_append, List.find?_cons]
    by_cases hk : (splitDefine d).1 = key
    · simp [handleDefine, defineProperty, setString, hk]
    · have hk' : ¬ key = (splitDefine d).1 := fun h => hk h.symm
      have hb : ((splitDefine d).1 == key) = false := by simpa using hk
      simp only [handleDefine, defineProperty, setString, hk', if_false, hb]
      exact ih config key

/-- C11. After any sequence of `--define` options, every name is bound in
the configuration to the value of the last definition with that name (and
keeps its earlier binding when no definition names it), where a definition is
split at its first `=` into the text before it, the name, and all the text
after it, the value, which may contain `=`; a definition without `=` binds
the whole text to the empty value. -/
theorem handleDefine_last_definition_wins (defs : List String) (config : Configuration)
    (key : String) :
    (defs.foldl (fun c d => handleDefine c "define" d) config key =
      match defs.reverse.find? (fun d => (splitDefine d).1 == key) with
      | some d => some (splitDefine d).2
      | none => config key)
    ∧ (∀ d, handleDefine config "define" d (splitDefine d).1 = some (splitDefine d).2)
    ∧ (∀ n v : String, '=' ∉ n.data → splitDefine (n ++ "=" ++ v) = (n, v))
    ∧ (∀ d : String, '=' ∉ d.data → splitDefine d = (d, "")) := by
  refine ⟨defines_last defs config key, fun d => ?_, splitDefine_at_first_equals,
    splitDefine_without_equals⟩
  simp [handleDefine, defineProperty, setString]

/-- The definitions `a=1`, `b=x=y`, `a=2` and `flag`, applied in this order
to the empty configuration. -/
theorem handleDefine_sample :
    let config := ["a=1", "b=x=y", "a=2", "flag"].foldl
      (fun c d => handleDefine c "define" d) (fun _ => none)
    config "a" = some "2" ∧ config "b" = some "x=y" ∧ config "flag" = some ""
      ∧ config "c" = none := by
  refine ⟨by rfl, by rfl, by rfl, by rfl⟩

/-! ## The scan of the code entries and the splitting of glob expressions -/

/-- The glob expressions `handleBin` reads from the specification with an
empty second entry. -/
theorem handleBin_sample :
    (handleBin envPlain cfgCodeEmpty appDefault (.given "/out/b_1.0.0") 5).map
        (fun entries => entries.map (fun e => e.expr))
      = some ["bin/*.so", "", "lib/*.so"] := by
  rfl

/-- C14, the code at the failing input: for the value `a.txt`, newline,
`b.txt`, `handleBin` hands the two patterns `a.txt` and `b.txt` to the glob,
while `handleOther`, whose separators are `,`, `;` and carriage return,
hands over the one pattern that still contains the newline. -/
theorem handleOther_does_not_split_at_newline :
    (handleCode envPlain cfgTwoLines appDefault (.directory (.given "/out/b_1.0.0") "bin")
        (codePath 0)).patterns = ["a.txt", "b.txt"]
    ∧ handleOtherPatterns envPlain cfgTwoLines = some ["a.txt\nb.txt"] := by
  constructor <;> rfl

/-! ## Copying without hidden entries -/

theorem mem_foldl_addPath (l : List PathL) :
    ∀ (ds : List PathL) (q : PathL),
      q ∈ l.foldl (fun ds q => if ds.contains q then ds else ds ++ [q]) ds ↔ q ∈ ds ∨ q ∈ l := by
  induction l with
  | nil => intro ds q; simp
  | cons x xs ih =>
    intro ds q
    simp only [List.foldl_cons, ih, List.mem_cons]
    by_cases hx : x ∈ ds
    · have hc : ds.contains x = true := by simpa using hx
      simp only [hc, if_true]
      constructor
      · rintro (h | h)
        · exact Or.inl h
        · exact Or.inr (Or.inr h)
      · rintro (h | h | h)
        · exact Or.inl h
        · exact Or.inl (h ▸ hx)
        · exact Or.inr h
    · have hc : ds.contains x = false := by simpa using hx
      simp only [hc, Bool.false_eq_true, if_false, List.mem_append, List.mem_singleton]
      tauto

/-- Creating the directory `name` below an existing directory `dest`, where
no regular file has that path: no exception, the files stay, and the only
directory that may be new is the one asked for. -/
theorem createDirectories_child (fs : FS) (dest : PathL) (name : String)
    (hc : ∀ p, p <+: dest → p ∈ fs.dirs) (hn : dest ++ [name] ∉ fs.files) :
    ∃ fs1, createDirectories fs (dest ++ [name]) = .ok fs1 ∧ fs1.files = fs.files
      ∧ ∀ p, p ∈ fs1.dirs ↔ p ∈ fs.dirs ∨ p = dest ++ [name] := by
  unfold createDirectories
  by_cases hd : dest ++ [name] ∈ fs.dirs
  · have hcd : fs.dirs.contains (dest ++ [name]) = true := by simpa using hd
    have h1 : (fs.dirs.contains (dest ++ [name]) || fs.files.contains (dest ++ [name])) = true := by
      rw [hcd]; rfl
    refine ⟨fs, by rw [if_pos h1], rfl, fun p => ⟨Or.inl, ?_⟩⟩
    rintro (h | h)
    · exact h
    · exact h ▸ hd
  · have hcd : fs.dirs.contains (dest ++ [name]) = false := by simpa using hd
    have hcf : fs.files.contains (dest ++ [name]) = false := by simpa using hn
    have h1 : ¬ (fs.dirs.contains (dest ++ [name]) || fs.files.contains (dest ++ [name])) = true := by
      rw [hcd, hcf]; simp
    have hany : ¬ (dest ++ [name]).inits.any
        (fun q => !fs.dirs.contains q && fs.files.contains q) = true := by
      rw [List.any_eq_true]
      rintro ⟨q, hq, hq2⟩
      rw [List.mem_inits, List.prefix_concat_iff] at hq
      rcases hq with rfl | hq
      · rw [hcf] at hq2
        simp at hq2
      · have hqd : fs.dirs.contains q = true := by simpa using hc q hq
        rw [hqd] at hq2
        simp at hq2
    rw [if_neg h1, if_neg hany]
    refine ⟨_, rfl, rfl, fun p => ?_⟩
    show p ∈ List.foldl _ fs.dirs _ ↔ _
    rw [mem_foldl_addPath, List.mem_inits, List.prefix_concat_iff]
    constructor
    · rintro (h | h | h)
      · exact Or.inl h
      · exact Or.inr h
      · exact Or.inl (hc p h)
    · rintro (h | h)
      · exact Or.inl h
      · exact Or.inr (Or.inl h)

/-- Copying a plain file into an existing directory `dest` that holds no
directory of that name: no exception, the directories stay, and the only
file that may be new is the copy. -/
theorem copyTo_child (fs : FS) (name : String) (dest : PathL) (dirForm : Bool)
    (hd : dest ∈ fs.dirs) (hn : dest ++ [name] ∉ fs.dirs) :
    ∃ fs1, copyTo fs name dest dirForm = .ok fs1 ∧ fs1.dirs = fs.dirs
      ∧ ∀ p, p ∈ fs1.files ↔ p ∈ fs.files ∨ p = dest ++ [name] := by
  have hc : fs.dirs.contains dest = true := by simpa using hd
  have hcn : fs.dirs.contains (dest ++ [name]) = false := by simpa using hn
  refine ⟨{ fs with files := if fs.files.contains (dest ++ [name]) then fs.files
                              else fs.files ++ [dest ++ [name]] }, ?_, rfl, fun p => ?_⟩
  · simp only [copyTo, hc, Bool.true_or, if_true, hcn, List.dropLast_concat,
      Bool.not_true, Bool.or_self, Bool.false_eq_true, if_false]
  · show p ∈ (if fs.files.contains (dest ++ [name]) then fs.files
        else fs.files ++ [dest ++ [name]]) ↔ _
    by_cases hx : dest ++ [name] ∈ fs.files
    · have hf : fs.files.contains (dest ++ [name]) = true := by simpa using hx
      rw [if_pos hf]
      constructor
      · exact Or.inl
      · rintro (h | h)
        · exact h
        · exact h ▸ hx
    · have hf : ¬ fs.files.contains (dest ++ [name]) = true := by simpa using hx
      rw [if_neg hf]
      simp only [List.mem_append, List.mem_singleton]

theorem listing_file (name : String) (hidden : Bool) (q : PathL) (d v : Bool) :
    (q, d, v) ∈ listing (.file name hidden) ↔ q = [name] ∧ d = false ∧ v = !hidden := by
  simp [listing]

theorem listing_directory (name : String) (hidden : Bool) (children : List Entry) (q : PathL)
    (d v : Bool) :
    (q, d, v) ∈ listing (.directory name hidden children) ↔
      (q = [name] ∧ d = true ∧ v = !hidden)
      ∨ ∃ q' v', (q', d, v') ∈ listingAll children ∧ q = name :: q' ∧ v = (!hidden && v') := by
  simp only [listing, List.mem_cons, List.mem_map, Prod.mk.injEq, Prod.exists]
  constructor
  · rintro (h | ⟨q', d', v', hm, h1, h2, h3⟩)
    · exact Or.inl h
    · subst h2
      exact Or.inr ⟨q', v', hm, h1.symm, h3.symm⟩
  · rintro (h | ⟨q', v', hm, h1, h2⟩)
    · exact Or.inl h
    · exact Or.inr ⟨q', d, v', hm, h1.symm, rfl, h2.symm⟩

theorem listing_directory_below (name : String) (children : List Entry) (q : PathL) (d : Bool) :
    (name :: q, d, true) ∈ listing (.directory name false children) ↔
      (q = [] ∧ d = true) ∨ (q, d, true) ∈ listingAll children := by
  rw [listing_directory]
  constructor
  · rintro (⟨h, hd, _⟩ | ⟨q', v', hq', h, hv⟩)
    · exact Or.inl ⟨by simpa using h, hd⟩
    · have hv' : v' = true := by simpa using hv.symm
      have hq : q = q' := by simpa using h
      subst hv' hq
      exact Or.inr hq'
  · rintro (⟨rfl, hd⟩ | h)
    · exact Or.inl ⟨rfl, hd, rfl⟩
    · exact Or.inr ⟨q, true, h, rfl, rfl⟩

theorem listing_directory_visible (name : String) (children : List Entry) (dest p : PathL)
    (d : Bool) :
    (∃ q, (q, d, true) ∈ listing (.directory name false children) ∧ p = dest ++ q) ↔
      ((d = true ∧ p = dest ++ [name])
        ∨ ∃ q', (q', d, true) ∈ listingAll children ∧ p = dest ++ [name] ++ q') := by
  constructor
  · rintro ⟨q, hq, rfl⟩
    rw [listing_directory] at hq
    rcases hq with ⟨rfl, hd, _⟩ | ⟨q', v', hq', rfl, hv⟩
    · exact Or.inl ⟨hd, rfl⟩
    · have hv' : v' = true := by simpa using hv.symm
      subst hv'
      exact Or.inr ⟨q', hq', by simp⟩
  · rintro (⟨hd, rfl⟩ | ⟨q', hq', rfl⟩)
    · refine ⟨[name], ?_, rfl⟩
      rw [listing_directory]
      exact Or.inl ⟨rfl, hd, rfl⟩
    · refine ⟨name :: q', ?_, by simp⟩
      rw [listing_directory]
      exact Or.inr ⟨q', true, hq', rfl, rfl⟩

theorem listing_hidden (file : Entry) (h : file.isHidden = true) (q : PathL) (d : Bool) :
    (q, d, true) ∉ listing file := by
  cases file with
  | file name hidden =>
    simp only [Entry.isHidden] at h
    subst h
    rw [listing_file]
    simp
  | directory name hidden children =>
    simp only [Entry.isHidden] at h
    subst h
    rw [listing_directory]
    simp

theorem copyFile_hidden (file : Entry) (h : file.isHidden = true) (dest : PathL)
    (dirForm : Bool) (fs : FS) : copyFile file dest dirForm fs = .ok fs := by
  cases file <;> simp [copyFile, h]
mutual
theorem copyFile_listing : ∀ (file : Entry) (dest : PathL) (dirForm : Bool) (fs : FS),
    (∀ p, p <+: dest → p ∈ fs.dirs) →
    (∀ q, (q, true, true) ∈ listing file → dest ++ q ∉ fs.files) →
    (∀ q, (q, false, true) ∈ listing file → dest ++ q ∉ fs.dirs) →
    (∀ q, (q, false, true) ∈ listing file → (q, true, true) ∉ listing file) →
    ∃ fs', copyFile file dest dirForm fs = .ok fs'
      ∧ (∀ p, p ∈ fs'.files ↔
          p ∈ fs.files ∨ ∃ q, (q, false, true) ∈ listing file ∧ p = dest ++ q)
      ∧ (∀ p, p ∈ fs'.dirs ↔
          p ∈ fs.dirs ∨ ∃ q, (q, true, true) ∈ listing file ∧ p = dest ++ q)
  | .file name hidden, dest, dirForm, fs, hc, _, hf, _ => by
    have hdest : dest ∈ fs.dirs := hc dest (List.prefix_refl _)
    cases hidden with
    | true =>
      have hh : (Entry.file name true).isHidden = true := rfl
      exact ⟨fs, copyFile_hidden _ hh dest dirForm fs,
        fun p => ⟨Or.inl, fun h => h.elim id
          (fun ⟨q, hq, _⟩ => absurd hq (listing_hidden _ hh q false))⟩,
        fun p => ⟨Or.inl, fun h => h.elim id
          (fun ⟨q, hq, _⟩ => absurd hq (listing_hidden _ hh q true))⟩⟩
    | false =>
      have hn : dest ++ [name] ∉ fs.dirs :=
        hf [name] ((listing_file name false [name] false true).mpr ⟨rfl, rfl, rfl⟩)
      obtain ⟨fs1, hcp, hdirs, hfiles⟩ := copyTo_child fs name dest dirForm hdest hn
      refine ⟨fs1, ?_, fun p => ?_, fun p => ?_⟩
      · simp only [copyFile, Entry.isHidden, Bool.false_eq_true, if_false]
        exact hcp
      · rw [hfiles p]
        simp [listing_file]
      · rw [hdirs]
        simp [listing_file]
  | .directory name hidden children, dest, dirForm, fs, hc, hd, hf, hx => by
    have hdest : dest ∈ fs.dirs := hc dest (List.prefix_refl _)
    have hcont : fs.dirs.contains dest = true := by simpa using hdest
    cases hidden with
    | true =>
      have hh : (Entry.directory name true children).isHidden = true := rfl
      exact ⟨fs, copyFile_hidden _ hh dest dirForm fs,
        fun p => ⟨Or.inl, fun h => h.elim id
          (fun ⟨q, hq, _⟩ => absurd hq (listing_hidden _ hh q false))⟩,
        fun p => ⟨Or.inl, fun h => h.elim id
          (fun ⟨q, hq, _⟩ => absurd hq (listing_hidden _ hh q true))⟩⟩
    | false =>
      have hself : ([name], true, true) ∈ listing (.directory name false children) :=
        (listing_directory_below name children [] true).mpr (Or.inl ⟨rfl, rfl⟩)
      have hn : dest ++ [name] ∉ fs.files := hd [name] hself
      obtain ⟨fs1, hcd, hfiles1, hdirs1⟩ := createDirectories_child fs dest name hc hn
      have hc' : ∀ p, p <+: dest ++ [name] → p ∈ fs1.dirs := by
        intro p hp
        rw [hdirs1]
        rcases List.prefix_concat_iff.mp hp with h | h
        · exact Or.inr h
        · exact Or.inl (hc p h)
      have hd' : ∀ q, (q, true, true) ∈ listingAll children →
          dest ++ [name] ++ q ∉ fs1.files := by
        intro q hq
        rw [hfiles1]
        have := hd (name :: q) ((listing_directory_below name children q true).mpr (Or.inr hq))
        simpa using this
      have hf' : ∀ q, (q, false, true) ∈ listingAll children →
          dest ++ [name] ++ q ∉ fs1.dirs := by
        intro q hq hmem
        have hqf : (name :: q, false, true) ∈ listing (.directory name false children) :=
          (listing_directory_below name children q false).mpr (Or.inr hq)
        rcases (hdirs1 _).mp hmem with h | h
        · exact hf (name :: q) hqf (by simpa using h)
        · have hq0 : q = [] := by simpa using h
          subst hq0
          exact hx [name] hqf hself
      have hx' : ∀ q, (q, false, true) ∈ listingAll children →
          (q, true, true) ∉ listingAll children := by
        intro q hq hq2
        exact hx (name :: q)
          ((listing_directory_below name children q false).mpr (Or.inr hq))
          ((listing_directory_below name children q true).mpr (Or.inr hq2))
      obtain ⟨fs2, hce, hfi, hdi⟩ := copyEach_listing children (dest ++ [name]) fs1 hc' hd' hf' hx'
      refine ⟨fs2, ?_, fun p => ?_, fun p => ?_⟩
      · simp only [copyFile, Entry.isHidden, Bool.false_eq_true, if_false, hcont, Bool.true_or,
          if_true, Entry.getFileName, hcd]
        exact hce
      · rw [hfi p, hfiles1, listing_directory_visible]
        simp
      · rw [hdi p, hdirs1 p, listing_directory_visible]
        simp only [true_and]
        tauto
theorem copyEach_listing : ∀ (it : List Entry) (dest : PathL) (fs : FS),
    (∀ p, p <+: dest → p ∈ fs.dirs) →
    (∀ q, (q, true, true) ∈ listingAll it → dest ++ q ∉ fs.files) →
    (∀ q, (q, false, true) ∈ listingAll it → dest ++ q ∉ fs.dirs) →
    (∀ q, (q, false, true) ∈ listingAll it → (q, true, true) ∉ listingAll it) →
    ∃ fs', copyEach it dest fs = .ok fs'
      ∧ (∀ p, p ∈ fs'.files ↔
          p ∈ fs.files ∨ ∃ q, (q, false, true) ∈ listingAll it ∧ p = dest ++ q)
      ∧ (∀ p, p ∈ fs'.dirs ↔
          p ∈ fs.dirs ∨ ∃ q, (q, true, true) ∈ listingAll it ∧ p = dest ++ q)
  | [], dest, fs, _, _, _, _ => by
    exact ⟨fs, rfl, by simp [listingAll], by simp [listingAll]⟩
  | e :: rest, dest, fs, hc, hd, hf, hx => by
    have hl : ∀ x, x ∈ listing e → x ∈ listingAll (e :: rest) := by
      intro x hxm
      rw [listingAll]
      exact List.mem_append_left _ hxm
    have hr : ∀ x, x ∈ listingAll rest → x ∈ listingAll (e :: rest) := by
      intro x hxm
      rw [listingAll]
      exact List.mem_append_right _ hxm
    obtain ⟨fs1, he, hf1, hd1⟩ := copyFile_listing e dest false fs hc
      (fun q hq => hd q (hl _ hq)) (fun q hq => hf q (hl _ hq))
      (fun q hq hq2 => hx q (hl _ hq) (hl _ hq2))
    have hc2 : ∀ p, p <+: dest → p ∈ fs1.dirs := fun p hp => (hd1 p).mpr (Or.inl (hc p hp))
    have hd2 : ∀ q, (q, true, true) ∈ listingAll rest → dest ++ q ∉ fs1.files := by
      intro q hq hmem
      rcases (hf1 _).mp hmem with h | ⟨q', hq', h⟩
      · exact hd q (hr _ hq) h
      · have hqq : q = q' := List.append_cancel_left h
        subst hqq
        exact hx q (hl _ hq') (hr _ hq)
    have hf2 : ∀ q, (q, false, true) ∈ listingAll rest → dest ++ q ∉ fs1.dirs := by
      intro q hq hmem
      rcases (hd1 _).mp hmem with h | ⟨q', hq', h⟩
      · exact hf q (hr _ hq) h
      · have hqq : q = q' := List.append_cancel_left h
        subst hqq
        exact hx q (hr _ hq) (hl _ hq')
    obtain ⟨fs2, hre, hf2', hd2'⟩ := copyEach_listing rest dest fs1 hc2 hd2 hf2
      (fun q hq hq2 => hx q (hr _ hq) (hr _ hq2))
    refine ⟨fs2, ?_, fun p => ?_, fun p => ?_⟩
    · simp only [copyEach, he]
      exact hre
    · rw [hf2' p, hf1 p]
      simp only [listingAll, List.mem_append]
      constructor
      · rintro ((h | ⟨q, hq, rfl⟩) | ⟨q, hq, rfl⟩)
        · exact Or.inl h
        · exact Or.inr ⟨q, Or.inl hq, rfl⟩
        · exact Or.inr ⟨q, Or.inr hq, rfl⟩
      · rintro (h | ⟨q, (hq | hq), rfl⟩)
        · exact Or.inl (Or.inl h)
        · exact Or.inl (Or.inr ⟨q, hq, rfl⟩)
        · exact Or.inr ⟨q, hq, rfl⟩
    · rw [hd2' p, hd1 p]
      simp only [listingAll, List.mem_append]
      constructor
      · rintro ((h | ⟨q, hq, rfl⟩) | ⟨q, hq, rfl⟩)
        · exact Or.inl h
        · exact Or.inr ⟨q, Or.inl hq, rfl⟩
        · exact Or.inr ⟨q, Or.inr hq, rfl⟩
      · rintro (h | ⟨q, (hq | hq), rfl⟩)
        · exact Or.inl (Or.inl h)
        · exact Or.inl (Or.inr ⟨q, hq, rfl⟩)
        · exact Or.inr ⟨q, hq, rfl⟩
end

theorem mem_listingAll (x : PathL × Bool × Bool) :
    ∀ l : List Entry, x ∈ listingAll l ↔ ∃ e, e ∈ l ∧ x ∈ listing e := by
  intro l
  induction l with
  | nil => simp [listingAll]
  | cons e rest ih =>
    rw [listingAll, List.mem_append, ih]
    simp

theorem foldlM_copyFile (fileAt : String → Entry) (root : PathL) :
    ∀ (files : List String) (fs : FS),
      files.foldlM (fun fs itFiles => copyFile (fileAt itFiles) root false fs) fs
        = copyEach (files.map fileAt) root fs := by
  intro files
  induction files with
  | nil => intro fs; rfl
  | cons x xs ih =>
    intro fs
    simp only [List.foldlM_cons, List.map_cons, copyEach]
    cases hcf : copyFile (fileAt x) root false fs with
    | error e => rfl
    | ok fs1 => exact ih fs1

/-- A visible directory is copied by `copyDirectory` into the target that
`copyFile` computes. -/
theorem copyFile_directory (name : String) (children : List Entry) (dest : PathL)
    (dirForm : Bool) (fs : FS) :
    copyFile (.directory name false children) dest dirForm fs
      = copyDirectory (.directory name false children)
          (if fs.dirs.contains dest || dirForm then dest ++ [name] else dest) fs := by
  simp only [copyFile, copyDirectory, Entry.isHidden, Entry.getFileName, Entry.children,
    Bool.false_eq_true, if_false]

/-- C15, the claim as stated fails for some destinations. Where the staging
root holds a regular file named like the source directory, the directory is
not created and its files are copied onto that file: the visible entry
`web/index.html` does not arrive. The same happens inside `handleOther` on a
fresh staging root when `files` matches a file and a directory of one base
name: the file `y` of the directory `b/x` is copied onto the file `x`. And a
visible file whose name is that of a directory in the destination is not
copied: the copy throws. -/
theorem copyFile_onto_regular_file_loses_entries :
    copyFile treeSample ["out", "b_1.0.0"] false fsClash = .ok fsClash
    ∧ (["web", "index.html"], false, true) ∈ listing treeSample
    ∧ ["out", "b_1.0.0", "web", "index.html"] ∉ fsClash.files
    ∧ handleOther envPlain cfgSameName globLiteral fileAtSameName ["out", "b_1.0.0"] fsStaging
        = .ok ⟨[[], ["out"], ["out", "b_1.0.0"]], [["out", "b_1.0.0", "x"]]⟩
    ∧ (["x", "y"], false, true) ∈ listing (fileAtSameName "b/x")
    ∧ copyFile (.file "web" false) ["out", "b_1.0.0"] false
          ⟨[[], ["out"], ["out", "b_1.0.0"], ["out", "b_1.0.0", "web"]], []⟩
        = .error (.fileError "Cannot copy file" "out/b_1.0.0/web") := by
  refine ⟨by rfl, by decide, by decide, by rfl, by decide, by rfl⟩

/-- C15, amended. A hidden source is a no-op of `copyFile` for every
destination, and a visible directory is copied by `copyDirectory`, whose loop
hands every child to `copyFile` again. For a destination that exists as a
directory with its parents, that holds no regular file where the copy makes a
directory and no directory where it copies a file, and a source that has no
file and directory of one relative path: `copyFile` does not throw, and the
files and directories present afterwards are those present before and
exactly the entries of the source tree that are not hidden and lie below
non-hidden directories only, each at its relative path under the
destination. Under the same conditions on the matched files, the files
`handleOther` leaves under the staging root are, besides those already there,
exactly the non-hidden entries of the matched files. -/
theorem copyFile_copies_exactly_visible_entries (file : Entry) (dest : PathL) (dirForm : Bool)
    (fs : FS) (hdest : ∀ p, p <+: dest → p ∈ fs.dirs)
    (hd : ∀ q, (q, true, true) ∈ listing file → dest ++ q ∉ fs.files)
    (hf : ∀ q, (q, false, true) ∈ listing file → dest ++ q ∉ fs.dirs)
    (hx : ∀ q, (q, false, true) ∈ listing file → (q, true, true) ∉ listing file) :
    (∀ (anyDest : PathL) (anyForm : Bool) (anyFs : FS), file.isHidden = true →
        copyFile file anyDest anyForm anyFs = .ok anyFs)
    ∧ (∀ (name : String) (children : List Entry) (anyDest : PathL) (anyForm : Bool)
        (anyFs : FS), file = .directory name false children →
        copyFile file anyDest anyForm anyFs
          = copyDirectory file
              (if anyFs.dirs.contains anyDest || anyForm then anyDest ++ [name] else anyDest)
              anyFs)
    ∧ (∃ out, copyFile file dest dirForm fs = .ok out
        ∧ (∀ p, p ∈ out.files ↔
            p ∈ fs.files ∨ ∃ q, (q, false, true) ∈ listing file ∧ p = dest ++ q)
        ∧ (∀ p, p ∈ out.dirs ↔
            p ∈ fs.dirs ∨ ∃ q, (q, true, true) ∈ listing file ∧ p = dest ++ q))
    ∧ (∀ (env : Env String) (cfg : Cfg) (glob : String → List String)
        (fileAt : String → Entry) (globs : String), cfg "files" = some globs →
        (∀ q, (q, true, true) ∈ listingAll
            (((StringTokenizer (env.expand globs) ",;\r").foldl
              (fun files it => (glob it).foldl setInsert files) []).map fileAt) →
          dest ++ q ∉ fs.files) →
        (∀ q, (q, false, true) ∈ listingAll
            (((StringTokenizer (env.expand globs) ",;\r").foldl
              (fun files it => (glob it).foldl setInsert files) []).map fileAt) →
          dest ++ q ∉ fs.dirs) →
        (∀ q, (q, false, true) ∈ listingAll
            (((StringTokenizer (env.expand globs) ",;\r").foldl
              (fun files it => (glob it).foldl setInsert files) []).map fileAt) →
          (q, true, true) ∉ listingAll
            (((StringTokenizer (env.expand globs) ",;\r").foldl
              (fun files it => (glob it).foldl setInsert files) []).map fileAt)) →
        ∃ out, handleOther env cfg glob fileAt dest fs = .ok out
          ∧ ∀ p, p ∈ out.files ↔
              p ∈ fs.files ∨ ∃ path q,
                path ∈ (StringTokenizer (env.expand globs) ",;\r").foldl
                    (fun files it => (glob it).foldl setInsert files) []
                ∧ (q, false, true) ∈ listing (fileAt path) ∧ p = dest ++ q) := by
  refine ⟨fun anyDest anyForm anyFs h => copyFile_hidden file h anyDest anyForm anyFs, ?_,
    copyFile_listing file dest dirForm fs hdest hd hf hx, ?_⟩
  · intro name children anyDest anyForm anyFs hfile
    subst hfile
    exact copyFile_directory name children anyDest anyForm anyFs
  · intro env cfg glob fileAt globs hg hd' hf' hx'
    obtain ⟨out, hout, hfiles, _⟩ := copyEach_listing _ dest fs hdest hd' hf' hx'
    refine ⟨out, ?_, fun p => ?_⟩
    · simp only [handleOther, hasProperty, getString, hg, Option.isSome_some, if_true]
      rw [foldlM_copyFile]
      exact hout
    · rw [hfiles p]
      constructor
      · rintro (h | ⟨q, hq, rfl⟩)
        · exact Or.inl h
        · obtain ⟨e, he, hqe⟩ := (mem_listingAll _ _).mp hq
          obtain ⟨path, hpath, rfl⟩ := List.mem_map.mp he
          exact Or.inr ⟨path, q, hpath, hqe, rfl⟩
      · rintro (h | ⟨path, q, hpath, hqe, rfl⟩)
        · exact Or.inl h
        · exact Or.inr ⟨q, (mem_listingAll _ _).mpr
            ⟨fileAt path, List.mem_map.mpr ⟨path, hpath, rfl⟩, hqe⟩, rfl⟩

/-- The staging root and its parents are directories of the sample
destination. -/
theorem fsStaging_closed : ∀ p : PathL, p <+: ["out", "b_1.0.0"] → p ∈ fsStaging.dirs := by
  intro p hp
  have hm := (List.mem_inits p ["out", "b_1.0.0"]).mpr hp
  simpa [List.inits, fsStaging] using hm

/-- The entries of the sample source directory. -/
theorem listing_treeSample :
    listing treeSample
      = [ (["web"], true, true), (["web", "index.html"], false, true),
          (["web", ".htaccess"], false, false), (["web", ".git"], true, false),
          (["web", ".git", "config"], false, false), (["web", "img"], true, true),
          (["web", "img", "logo.png"], false, true), (["web", "img", ".thumbs"], false, false) ] := by
  rfl

/-- C15, amended, for a source directory with a hidden file, a hidden
directory and a visible directory holding a hidden file, copied into the
empty staging root: the copy does not throw, and the files and directories
afterwards are the non-hidden ones below non-hidden directories. -/
theorem copyFile_copies_exactly_visible_entries_witness :
    ∃ out, copyFile treeSample ["out", "b_1.0.0"] false fsStaging = .ok out
      ∧ (∀ p, p ∈ out.files ↔
          p ∈ fsStaging.files
            ∨ ∃ q, (q, false, true) ∈ listing treeSample ∧ p = ["out", "b_1.0.0"] ++ q)
      ∧ (∀ p, p ∈ out.dirs ↔
          p ∈ fsStaging.dirs
            ∨ ∃ q, (q, true, true) ∈ listing treeSample ∧ p = ["out", "b_1.0.0"] ++ q) :=
  (copyFile_copies_exactly_visible_entries treeSample ["out", "b_1.0.0"] false fsStaging
    fsStaging_closed
    (by intro q _; simp [fsStaging])
    (by
      intro q hq
      rw [listing_treeSample] at hq
      simp at hq
      rcases hq with rfl | rfl <;> decide)
    (by
      intro q hq
      rw [listing_treeSample] at hq ⊢
      simp at hq
      rcases hq with rfl | rfl <;> decide)).2.2.1

/-- The copy of the sample directory into the empty staging root: only
`web`, `web/img`, `web/index.html` and `web/img/logo.png` arrive. -/
theorem copyFile_sample :
    copyFile treeSample ["out", "b_1.0.0"] false fsStaging
      = .ok ⟨[[], ["out"], ["out", "b_1.0.0"], ["out", "b_1.0.0", "web"],
            ["out", "b_1.0.0", "web", "img"]],
          [["out", "b_1.0.0", "web", "index.html"],
            ["out", "b_1.0.0", "web", "img", "logo.png"]]⟩ := by
  rfl

/-- With `files` matching `a.txt`, `b.txt` and the hidden `.c.txt`, only
`a.txt` and `b.txt` reach the staging root. -/
theorem handleOther_sample :
    handleOther envPlain cfgFiles globTxt fileAtPlain ["out", "b_1.0.0"] fsStaging
      = .ok ⟨[[], ["out"], ["out", "b_1.0.0"]],
          [["out", "b_1.0.0", "a.txt"], ["out", "b_1.0.0", "b.txt"]]⟩ := by
  rfl

/-! ## Mutual exclusion of two processes -/

/-- An attempt under exclusive creation succeeds only when the sentinel was
absent, and then leaves it in place; a failed attempt does not touch it. -/
theorem createFile_exclusive (o : Outcomes) (w : World) :
    ((FileLock.createFile (exclusiveCreate o w) w).1 = true →
        w.sentinel = false ∧ (FileLock.createFile (exclusiveCreate o w) w).2.sentinel = true)
    ∧ ((FileLock.createFile (exclusiveCreate o w) w).1 = false →
        (FileLock.createFile (exclusiveCreate o w) w).2.sentinel = w.sentinel)
    ∧ (FileLock.createFile (exclusiveCreate o w) w).2.createCalls = w.createCalls + 1 := by
  unfold FileLock.createFile exclusiveCreate
  cases hc : o.createFile w.createCalls with
  | error e => simp [hc]
  | ok b => cases hs : w.sentinel <;> simp [hc, hs]

/-- A step that makes a process a holder finds the sentinel absent and
creates it in that step; a step of a process that is no holder before or
after, or is a holder before and after, leaves the sentinel as it is. -/
theorem step_sentinel (app : BundleCreatorApplication) (o : Outcomes) (stage : Stage)
    (w : World) :
    (stage.holds = false → (FileLock.step app o stage w).1.holds = true →
        w.sentinel = false ∧ (FileLock.step app o stage w).2.sentinel = true
          ∧ (FileLock.step app o stage w).2.createCalls = w.createCalls + 1)
    ∧ (stage.holds = false → (FileLock.step app o stage w).1.holds = false →
        (FileLock.step app o stage w).2.sentinel = w.sentinel)
    ∧ (stage.holds = true → (FileLock.step app o stage w).1.holds = true →
        (FileLock.step app o stage w).2.sentinel = w.sentinel) := by
  cases stage with
  | entering =>
    have h := createFile_exclusive o w
    simp only [FileLock.step]
    cases hr : (FileLock.createFile (exclusiveCreate o w) w).1 with
    | true =>
      have h1 := h.1 hr
      simp [Stage.holds, h1.1, h1.2, h.2.2]
    | false =>
      have h2 := h.2.1 hr
      simp [Stage.holds, h2]
  | retrying attempts =>
    simp only [FileLock.step]
    by_cases ha : attempts + 1 > 100
    · simp [ha, Stage.holds]
    · have h := createFile_exclusive o (sleep w)
      simp only [ha, if_false]
      cases hr : (FileLock.createFile (exclusiveCreate o (sleep w)) (sleep w)).1 with
      | true =>
        have h1 := h.1 hr
        have hs : w.sentinel = false := h1.1
        have hc : (FileLock.createFile (exclusiveCreate o (sleep w)) (sleep w)).2.createCalls
            = w.createCalls + 1 := h.2.2
        simp [Stage.holds, hs, h1.2, hc]
      | false =>
        have h2 : (FileLock.createFile (exclusiveCreate o (sleep w)) (sleep w)).2.sentinel
            = w.sentinel := h.2.1 hr
        simp [Stage.holds, h2]
  | holding =>
    have hp := handleConfigLocked_preserves (fun w => w.sentinel) app o (fun _ _ => rfl)
      (fun _ _ => rfl) w
    simp only [FileLock.step, Stage.holds]
    exact ⟨fun h => by simp at h, fun h => by simp at h, fun _ _ => hp⟩
  | leaving => simp [FileLock.step, Stage.holds]
  | released => simp [FileLock.step, Stage.holds]
  | failed => simp [FileLock.step, Stage.holds]

/-- The invariant of the contention: the two processes do not both hold the
lock, and the sentinel exists while one of them holds it. -/
theorem contention_step_invariant (app0 app1 : BundleCreatorApplication) (o0 o1 : Outcomes)
    (c : Contention) (who : Bool)
    (hex : ¬ (c.first.holds = true ∧ c.second.holds = true))
    (hs : c.first.holds = true ∨ c.second.holds = true → c.world.sentinel = true) :
    ¬ ((Contention.step app0 app1 o0 o1 c who).first.holds = true
        ∧ (Contention.step app0 app1 o0 o1 c who).second.holds = true)
    ∧ ((Contention.step app0 app1 o0 o1 c who).first.holds = true
        ∨ (Contention.step app0 app1 o0 o1 c who).second.holds = true →
        (Contention.step app0 app1 o0 o1 c who).world.sentinel = true) := by
  cases who with
  | true =>
    have h := step_sentinel app1 o1 c.second c.world
    simp only [Contention.step, if_true]
    cases h1 : c.first.holds <;> cases h2 : c.second.holds <;>
      cases h3 : (FileLock.step app1 o1 c.second c.world).1.holds <;>
      simp_all
  | false =>
    have h := step_sentinel app0 o0 c.first c.world
    simp only [Contention.step, Bool.false_eq_true, if_false]
    cases h1 : c.first.holds <;> cases h2 : c.second.holds <;>
      cases h3 : (FileLock.step app0 o0 c.first c.world).1.holds <;>
      simp_all

theorem contention_run_invariant (app0 app1 : BundleCreatorApplication) (o0 o1 : Outcomes) :
    ∀ (schedule : List Bool) (c : Contention),
      ¬ (c.first.holds = true ∧ c.second.holds = true) →
      (c.first.holds = true ∨ c.second.holds = true → c.world.sentinel = true) →
      ¬ ((Contention.run app0 app1 o0 o1 schedule c).first.holds = true
          ∧ (Contention.run app0 app1 o0 o1 schedule c).second.holds = true)
      ∧ ((Contention.run app0 app1 o0 o1 schedule c).first.holds = true
          ∨ (Contention.run app0 app1 o0 o1 schedule c).second.holds = true →
          (Contention.run app0 app1 o0 o1 schedule c).world.sentinel = true) := by
  intro schedule
  induction schedule with
  | nil => intro c hex hs; exact ⟨hex, hs⟩
  | cons who rest ih =>
    intro c hex hs
    have h := contention_step_invariant app0 app1 o0 o1 c who hex hs
    simpa [Contention.run] using ih _ h.1 h.2

/-- C12. For two builder processes contending for the same staging path,
whatever the schedule of their steps, the world they start in, what they
build and which of their library calls throw: they never both hold the lock
(are between a successful `acquire` and the `release` of the destructor), and
the sentinel exists while one of them holds it. A process becomes a holder
only in a step that finds the sentinel absent and creates it in that same
step, by one call of the atomic `createFile`; there is no separate check
before the creation. -/
theorem at_most_one_process_holds_the_lock (app0 app1 : BundleCreatorApplication)
    (o0 o1 : Outcomes) (w : World) (schedule : List Bool) :
    ¬ ((Contention.run app0 app1 o0 o1 schedule (Contention.start w)).first.holds = true
        ∧ (Contention.run app0 app1 o0 o1 schedule (Contention.start w)).second.holds = true)
    ∧ ((Contention.run app0 app1 o0 o1 schedule (Contention.start w)).first.holds = true
        ∨ (Contention.run app0 app1 o0 o1 schedule (Contention.start w)).second.holds = true →
        (Contention.run app0 app1 o0 o1 schedule (Contention.start w)).world.sentinel = true)
    ∧ (∀ (app : BundleCreatorApplication) (o : Outcomes) (stage : Stage) (v : World),
        stage.holds = false → (FileLock.step app o stage v).1.holds = true →
        v.sentinel = false ∧ (FileLock.step app o stage v).2.sentinel = true
          ∧ (FileLock.step app o stage v).2.createCalls = v.createCalls + 1) := by
  have h := contention_run_invariant app0 app1 o0 o1 schedule (Contention.start w)
    (by simp [Contention.start, Stage.holds]) (by simp [Contention.start, Stage.holds])
  exact ⟨h.1, h.2, fun app o stage v => (step_sentinel app o stage v).1⟩

/-- A run of the two processes: the first acquires the lock, the second
fails twice while the first builds and releases, then the second acquires
it. -/
theorem contention_sample :
    (Contention.run appDefault appDefault Outcomes.allGood Outcomes.allGood
        [false, true, true, false] (Contention.start World.initial)).first = .leaving
    ∧ (Contention.run appDefault appDefault Outcomes.allGood Outcomes.allGood
        [false, true, true, false] (Contention.start World.initial)).second = .retrying 1
    ∧ (Contention.run appDefault appDefault Outcomes.allGood Outcomes.allGood
        [false, true, true, false, false, true] (Contention.start World.initial)).first
          = .released
    ∧ (Contention.run appDefault appDefault Outcomes.allGood Outcomes.allGood
        [false, true, true, false, false, true] (Contention.start World.initial)).second
          = .holding
    ∧ (Contention.run appDefault appDefault Outcomes.allGood Outcomes.allGood
        [false, true, true, false, false, true] (Contention.start World.initial)).world.sentinel
          = true := by
  refine ⟨by rfl, by rfl, by rfl, by rfl, by rfl⟩

/-! ## Sample runs -/

/-- A run in which nothing fails: one creation attempt, one release, one
archive build, and neither sentinel nor staging directory at the end. -/
theorem handleConfig_sample :
    handleConfig appDefault Outcomes.allGood "/tmp/b_1.0.0.lock" 101 World.initial
      = some (.ok (), ⟨false, false, 1, 0, 1, [⟨none, .CM_AUTO⟩]⟩) := by
  rfl

set_option maxRecDepth 100000 in
/-- The manifest text of the sample in the comments of `saveManifest`. -/
theorem saveManifest_sample : saveManifest sampleKeys id infoSample "" =
    "Manifest-Version: 1.0\nBundle-Name: OSP Sample Bundle 9\nBundle-SymbolicName: com.appinf.osp.bundle9\nBundle-Version: 0.9.1\nBundle-Vendor: Applied Informatics\nBundle-Activator: MyBundleActivator;library=TestBundle\nBundle-RunLevel: 200\nBundle-LazyStart: false\nRequire-Bundle: com.appinf.osp.bundle1;bundle-version=[1.0,2.0), \\\n                com.appinf.osp.bundle2\n" := by
  rfl

/-- The manifest loaded from the specification with a gap in its
dependencies. -/
theorem loadManifest_sample : loadManifest envPlain cfgGap 5 = some (.ok
    { name := "Sample", symbolicName := "com.sample", version := "1.0.0", vendor := "ACME",
      copyright := "", activatorClass := "", activatorLibrary := "",
      requiredBundles := [⟨"com.a", "[1.0,2.0)"⟩], lazyStart := false,
      runLevel := "999-user", extendsBundle := "" }) := by rfl

end BundleCreator
